import Mathlib

/-!
Verification of the RBAC core of the govt-backend repository.

The data model (app/models.py), the permission resolver
(app/views.py, MePermissionsView), the decorator layer
(app/decorators/rbac_decorators.py), the request middleware
(app/middleware/rbac_middleware.py) and the seeding command
(app/management/commands/setup_rbac.py) are embedded shallowly:
database tables become lists of rows, Django foreign keys become
embedded rows (Django object navigation `rp.permission` is direct
field access; query filters on a foreign key compare primary keys,
modelled as comparison of the embedded row's `id`).
-/

namespace GovtBackend

/-- Models Python `s.startswith(p)`. -/
def strStartsWith (s p : String) : Bool :=
  p.data.isPrefixOf s.data

/-- Row of the Role table (app/models.py, class Role). -/
structure Role where
  id : Nat
  name : String
  description : String
  is_active : Bool
deriving DecidableEq

/-- Row of the Permission table (app/models.py, class Permission). -/
structure Permission where
  id : Nat
  name : String
  description : String
  category : String
  codename : String
  is_active : Bool
deriving DecidableEq

/-- Row of the RolePermission join table; the foreign keys are embedded rows. -/
structure RolePermission where
  role : Role
  permission : Permission
deriving DecidableEq

/-- Row of the UserRole join table; the role foreign key is an embedded row. -/
structure UserRole where
  user_id : Nat
  role : Role
  is_active : Bool
deriving DecidableEq

/-- A user: identity plus the legacy integer `role` field (choices 1-4). -/
structure User where
  id : Nat
  role : Nat
deriving DecidableEq

/-- The database state the RBAC core reads and writes.  `permSeq` and
`roleSeq` model the primary-key sequences used when rows are created. -/
structure DB where
  permissions : List Permission
  roles : List Role
  rolePermissions : List RolePermission
  userRoles : List UserRole
  permSeq : Nat
  roleSeq : Nat
deriving DecidableEq

/-- The fixed legacy-role table of MePermissionsView.get (app/views.py). -/
def ROLE_NAME_BY_ID : Nat → Option String
  | 1 => some "Chief Officer"
  | 2 => some "Accountant Officer"
  | 3 => some "Auditor"
  | 4 => some "Clerk"
  | _ => none

/-- Lexicographic code-point order on character lists, the order Python uses
to compare strings. -/
def charListLe : List Char → List Char → Bool
  | [], _ => true
  | _ :: _, [] => false
  | a :: as, b :: bs => if a < b then true else if a == b then charListLe as bs else false

/-- Python string comparison `a <= b`. -/
def strLe (a b : String) : Bool :=
  charListLe a.data b.data

/-- Models Python `sorted(set_of_strings)`: the sorted list of the distinct
elements. -/
def sortedDedup (l : List String) : List String :=
  List.insertionSort (fun a b => strLe a b = true) l.dedup

/-- The resolution performed by `MePermissionsView.get` (app/views.py) for an
authenticated user: the value of the "permissions" key of the response. -/
def resolvePermissions (db : DB) (user : User) : List String :=
  let roleIds := (db.userRoles.filter fun ur => ur.user_id == user.id && ur.is_active).map
    fun ur => ur.role.id
  if !roleIds.isEmpty then
    sortedDedup ((db.rolePermissions.filter fun rp => roleIds.contains rp.role.id).map
      fun rp => rp.permission.codename)
  else
    match ROLE_NAME_BY_ID user.role with
    | some role_name =>
      match db.roles.find? fun r => r.name == role_name && r.is_active with
      | some role_obj =>
        sortedDedup ((db.rolePermissions.filter fun rp => rp.role.id == role_obj.id).map
          fun rp => rp.permission.codename)
      | none => []
    | none => []

/-- The full `GET /api/me/permissions/` endpoint: `none` is an unauthenticated
caller, who receives `{"permissions": []}` rather than an error. -/
def mePermissions (db : DB) (user : Option User) : List String :=
  match user with
  | none => []
  | some u => resolvePermissions db u

/-- Models `_user_has_permission` (app/decorators/rbac_decorators.py): looks the
codename up in the Permission table (returning false on DoesNotExist), then
scans the user's active UserRole rows for one whose role has a RolePermission
row for that permission. -/
def user_has_permission (db : DB) (uid : Nat) (permission_codename : String) : Bool :=
  match db.permissions.find? fun p => p.codename == permission_codename with
  | none => false
  | some permission =>
    (db.userRoles.filter fun ur => ur.user_id == uid && ur.is_active).any fun ur =>
      db.rolePermissions.any fun rp =>
        rp.role.id == ur.role.id && rp.permission.id == permission.id

/-- Models `_user_has_role` (app/decorators/rbac_decorators.py). -/
def user_has_role (db : DB) (uid : Nat) (role_name : String) : Bool :=
  db.userRoles.any fun ur =>
    ur.user_id == uid && ur.role.name == role_name && ur.is_active

/-- An inbound HTTP request as the gate sees it: path, method, the
authenticated user (none = unauthenticated) and the request headers, which
no gate ever reads. -/
structure Request where
  path : String
  method : String
  user : Option User
  headers : List (String × String)

/-- Outcome of a gate: let the wrapped view run, answer a JSON body with a
status, or redirect to a named route queueing a flash message. -/
inductive Response where
  | handler : Response
  | json : Nat → String → String → Response
  | redirect : String → String → Response
deriving DecidableEq

/-- The 401/redirect branch shared by every decorator for an unauthenticated
caller. -/
def authentication_required (request : Request) : Response :=
  if strStartsWith request.path "/api/" then
    .json 401 "Authentication required" "Please login to access this resource."
  else
    .redirect "login" "Please login to access this resource."

/-- Models the `has_permission(permission_codename)` decorator: the response
produced before (or instead of) the wrapped view. -/
def has_permission (db : DB) (permission_codename : String) (request : Request) : Response :=
  match request.user with
  | none => authentication_required request
  | some u =>
    if !user_has_permission db u.id permission_codename then
      if strStartsWith request.path "/api/" then
        .json 403 "Access Denied" ("You do not have permission: " ++ permission_codename)
      else
        .redirect "access_denied" "You do not have permission to access this resource."
    else
      .handler

/-- Models the `has_any_permission(*permission_codenames)` decorator. -/
def has_any_permission (db : DB) (permission_codenames : List String) (request : Request) :
    Response :=
  match request.user with
  | none => authentication_required request
  | some u =>
    let has_any := permission_codenames.any fun c => user_has_permission db u.id c
    if !has_any then
      if strStartsWith request.path "/api/" then
        .json 403 "Access Denied"
          ("You do not have any of these permissions: " ++
            String.intercalate ", " permission_codenames)
      else
        .redirect "access_denied" "You do not have permission to access this resource."
    else
      .handler

/-- Models the `has_all_permissions(*permission_codenames)` decorator. -/
def has_all_permissions (db : DB) (permission_codenames : List String) (request : Request) :
    Response :=
  match request.user with
  | none => authentication_required request
  | some u =>
    let missing_permissions := permission_codenames.filter fun c =>
      !user_has_permission db u.id c
    if !missing_permissions.isEmpty then
      if strStartsWith request.path "/api/" then
        .json 403 "Access Denied"
          ("You are missing these permissions: " ++
            String.intercalate ", " missing_permissions)
      else
        .redirect "access_denied" "You do not have permission to access this resource."
    else
      .handler

/-- Models the `role_required(role_name)` decorator. -/
def role_required (db : DB) (role_name : String) (request : Request) : Response :=
  match request.user with
  | none => authentication_required request
  | some u =>
    if !user_has_role db u.id role_name then
      if strStartsWith request.path "/api/" then
        .json 403 "Access Denied" ("You do not have the required role: " ++ role_name)
      else
        .redirect "access_denied" "You do not have permission to access this resource."
    else
      .handler

/-- Models the `any_role_required(*role_names)` decorator. -/
def any_role_required (db : DB) (role_names : List String) (request : Request) : Response :=
  match request.user with
  | none => authentication_required request
  | some u =>
    let has_any := role_names.any fun rn => user_has_role db u.id rn
    if !has_any then
      if strStartsWith request.path "/api/" then
        .json 403 "Access Denied"
          ("You do not have any of these roles: " ++ String.intercalate ", " role_names)
      else
        .redirect "access_denied" "You do not have permission to access this resource."
    else
      .handler

/-- The static URL-prefix → method → permission table built in
`RBACMiddleware.__init__` (app/middleware/rbac_middleware.py).  A Python dict
preserves insertion order, so the table is an ordered association list; a
`none` value is an entry that explicitly requires no permission. -/
def permission_map : List (String × List (String × Option String)) :=
  [ ("/api/users/",
      [("GET", some "view_users"), ("POST", some "add_users"), ("PUT", some "edit_users"),
       ("DELETE", some "delete_users"), ("PATCH", some "edit_users")]),
    ("/api/transactions/",
      [("GET", some "view_transactions"), ("POST", some "add_transactions"),
       ("PUT", some "edit_transactions"), ("DELETE", some "delete_transactions"),
       ("PATCH", some "edit_transactions")]),
    ("/api/bank-accounts/",
      [("GET", some "view_banks"), ("POST", some "add_banks"), ("PUT", some "edit_banks"),
       ("DELETE", some "delete_banks"), ("PATCH", some "edit_banks")]),
    ("/api/contractors/",
      [("GET", some "view_contractors"), ("POST", some "add_contractors"),
       ("PUT", some "edit_contractors"), ("DELETE", some "delete_contractors"),
       ("PATCH", some "edit_contractors")]),
    ("/api/settings/",
      [("GET", some "view_settings"), ("POST", some "edit_settings"),
       ("PUT", some "edit_settings"), ("DELETE", some "edit_settings"),
       ("PATCH", some "edit_settings")]),
    ("/api/settings/image-path/",
      [("GET", none)]),
    ("/api/reports/",
      [("GET", some "view_reports")]),
    ("/api/backup/",
      [("POST", some "backup_data")]) ]

/-- Python `d.get(method)` on one table value: `none` when the method is
absent, and the stored value (possibly `none`) when present. -/
def methodGet (tbl : List (String × Option String)) (method : String) : Option String :=
  match tbl.find? fun kv => kv.1 == method with
  | some kv => kv.2
  | none => none

/-- Models `RBACMiddleware._get_required_permission`: an exact-path match is
tried first; otherwise the table is scanned in insertion order and the FIRST
entry whose key is a prefix of the path wins. -/
def get_required_permission (path method : String) : Option String :=
  match permission_map.find? fun e => e.1 == path with
  | some e => methodGet e.2 method
  | none =>
    match permission_map.find? fun e => strStartsWith path e.1 with
    | some e => methodGet e.2 method
    | none => none

/-- Models `RBACMiddleware._role_has_permission`. -/
def role_has_permission (db : DB) (role : Role) (permission_codename : String) : Bool :=
  match db.permissions.find? fun p => p.codename == permission_codename with
  | none => false
  | some permission =>
    db.rolePermissions.any fun rp =>
      rp.role.id == role.id && rp.permission.id == permission.id

/-- Models `RBACMiddleware._check_api_permission` for an authenticated user. -/
def check_api_permission (db : DB) (uid : Nat) (path method : String) : Bool :=
  match get_required_permission path method with
  | none => true
  | some required_permission =>
    let user_roles := db.userRoles.filter fun ur => ur.user_id == uid && ur.is_active
    if user_roles.isEmpty then false
    else user_roles.any fun ur => role_has_permission db ur.role required_permission

/-- The fixed allow-list of `RBACMiddleware._should_skip_permission_check`. -/
def skip_paths : List String :=
  ["/admin/", "/api/auth/", "/api/token/", "/api/login/", "/api/logout/",
   "/static/", "/media/", "/access-denied/"]

/-- Models `RBACMiddleware._should_skip_permission_check`. -/
def should_skip_permission_check (path : String) : Bool :=
  skip_paths.any fun p => strStartsWith path p

/-- Models `RBACMiddleware._access_denied_response`. -/
def access_denied_response (path : String) : Response :=
  if strStartsWith path "/api/" then
    .json 403 "Access Denied" "You do not have permission to access this resource."
  else
    .redirect "access_denied" "You do not have permission to access this resource."

/-- Models `RBACMiddleware.__call__`: `.handler` means the request is passed
down the pipeline. -/
def rbac_middleware (db : DB) (request : Request) : Response :=
  if should_skip_permission_check request.path then .handler
  else
    match request.user with
    | none => .handler
    | some u =>
      if strStartsWith request.path "/api/" then
        if !check_api_permission db u.id request.path request.method then
          access_denied_response request.path
        else .handler
      else .handler

/-! The setup_rbac management command
(app/management/commands/setup_rbac.py). -/

/-- The `permissions_data` literal of the command: (codename, name,
description) triples. -/
def permissions_data : List (String × String × String) :=
  [ ("view_users", "Can view users", "View user information"),
    ("add_users", "Can add users", "Add new users"),
    ("edit_users", "Can edit users", "Edit existing users"),
    ("delete_users", "Can delete users", "Delete users"),
    ("view_transactions", "Can view transactions", "View transaction records"),
    ("add_transactions", "Can add transactions", "Add new transactions"),
    ("edit_transactions", "Can edit transactions", "Edit existing transactions"),
    ("delete_transactions", "Can delete transactions", "Delete transactions"),
    ("view_banks", "Can view bank accounts", "View bank account information"),
    ("add_banks", "Can add bank accounts", "Add new bank accounts"),
    ("edit_banks", "Can edit bank accounts", "Edit existing bank accounts"),
    ("delete_banks", "Can delete bank accounts", "Delete bank accounts"),
    ("view_contractors", "Can view contractors", "View contractor information"),
    ("add_contractors", "Can add contractors", "Add new contractors"),
    ("edit_contractors", "Can edit contractors", "Edit existing contractors"),
    ("delete_contractors", "Can delete contractors", "Delete contractors"),
    ("view_settings", "Can view settings", "View system settings"),
    ("edit_settings", "Can edit settings", "Edit system settings"),
    ("view_reports", "Can view reports", "View financial reports"),
    ("export_reports", "Can export reports", "Export financial reports"),
    ("backup_data", "Can backup data", "Create data backups"),
    ("restore_data", "Can restore data", "Restore data from backups") ]

/-- Models `Permission.objects.get_or_create(codename=..., defaults=...)`:
a fresh row takes the next primary key and the model defaults
(`is_active=True`, `category` not supplied). -/
def getOrCreatePermission (db : DB) (pd : String × String × String) : DB :=
  match db.permissions.find? fun p => p.codename == pd.1 with
  | some _ => db
  | none =>
    { db with
      permissions := db.permissions ++
        [{ id := db.permSeq, name := pd.2.1, description := pd.2.2, category := "",
           codename := pd.1, is_active := true }],
      permSeq := db.permSeq + 1 }

/-- Models `Role.objects.get_or_create(name=..., defaults=...)`, returning the
found-or-created row together with the new state. -/
def getOrCreateRole (db : DB) (name description : String) : Role × DB :=
  match db.roles.find? fun r => r.name == name with
  | some r => (r, db)
  | none =>
    let r : Role := { id := db.roleSeq, name := name, description := description,
                      is_active := true }
    (r, { db with roles := db.roles ++ [r], roleSeq := db.roleSeq + 1 })

/-- One iteration of the assignment loop of the command: look the codename up
(a missing Permission only prints a warning), then
`RolePermission.objects.get_or_create(role=role, permission=permission)`. -/
def assignPermission (role : Role) (db : DB) (perm_codename : String) : DB :=
  match db.permissions.find? fun p => p.codename == perm_codename with
  | none => db
  | some permission =>
    if db.rolePermissions.any fun rp =>
        rp.role.id == role.id && rp.permission.id == permission.id then db
    else
      { db with rolePermissions := db.rolePermissions ++
          [{ role := role, permission := permission }] }

/-- The cleanup loop of the command: delete every RolePermission row of this
role whose permission's codename is truthy and not in the desired set. -/
def cleanupRolePermissions (role : Role) (desired : List String) (db : DB) : DB :=
  { db with rolePermissions := db.rolePermissions.filter fun rp =>
      !(rp.role.id == role.id && !(rp.permission.codename == "") &&
        !(desired.contains rp.permission.codename)) }

/-- One entry of the `roles_data` loop: get-or-create the role, ensure every
desired permission is assigned, then reconcile away the extras. -/
def seedRole (db : DB) (name description : String) (perms : List String) : DB :=
  let rd := getOrCreateRole db name description
  let db1 := perms.foldl (assignPermission rd.1) rd.2
  cleanupRolePermissions rd.1 perms db1

/-- The desired permission set of the "Chief Officer" seed entry: every
codename of `permissions_data`. -/
def chief_permissions : List String := permissions_data.map fun pd => pd.1

/-- The desired permission set of the "Accountant Officer" seed entry. -/
def accountant_permissions : List String :=
  ["view_banks", "add_banks", "edit_banks",
   "view_contractors",
   "view_transactions", "add_transactions", "delete_transactions",
   "view_reports", "export_reports",
   "backup_data"]

/-- The desired permission set of the "Auditor" seed entry. -/
def auditor_permissions : List String :=
  ["view_banks",
   "view_contractors", "add_contractors", "edit_contractors",
   "view_transactions",
   "view_reports", "export_reports",
   "backup_data"]

/-- The desired permission set of the "Clerk" seed entry. -/
def clerk_permissions : List String :=
  ["view_transactions", "view_reports", "export_reports"]

/-- Models `Command.handle` of setup_rbac: seed the permission catalog, then
the four roles with their assignments and reconciliation. -/
def setup_rbac (db : DB) : DB :=
  let db1 := permissions_data.foldl getOrCreatePermission db
  let db2 := seedRole db1 "Chief Officer"
    "Master Administrator with full access to all system features" chief_permissions
  let db3 := seedRole db2 "Accountant Officer"
    "Financial operator with limited permissions per requirements" accountant_permissions
  let db4 := seedRole db3 "Auditor"
    "Auditing access with limited create rights on contractors" auditor_permissions
  seedRole db4 "Clerk"
    "Basic view and reporting access as per requirements" clerk_permissions

/-! Spec-side definitions: these follow the words of the specification, to be
compared against the functions embedded from the source. -/

/-- The spec's effective-permission membership (spec.md §3, invariants): the
codename is reachable through an active UserRole pointing to an ACTIVE Role. -/
def spec_effective_permission (db : DB) (uid : Nat) (c : String) : Bool :=
  db.userRoles.any fun ur =>
    ur.user_id == uid && ur.is_active && ur.role.is_active &&
      (db.rolePermissions.any fun rp =>
        rp.role.id == ur.role.id && rp.permission.codename == c)

/-- The direct-path membership the code actually computes: the Role's own
active flag is not consulted, only the UserRole's. -/
def direct_effective_permission (db : DB) (uid : Nat) (c : String) : Bool :=
  db.userRoles.any fun ur =>
    ur.user_id == uid && ur.is_active &&
      (db.rolePermissions.any fun rp =>
        rp.role.id == ur.role.id && rp.permission.codename == c)

/-- Referential and uniqueness constraints the Django models declare on the
Permission table (unique codename, primary-key id, foreign-key integrity of
RolePermission.permission). -/
def PermTableWF (db : DB) : Prop :=
  (∀ p ∈ db.permissions, ∀ q ∈ db.permissions, p.codename = q.codename → p = q) ∧
  (∀ p ∈ db.permissions, ∀ q ∈ db.permissions, p.id = q.id → p = q) ∧
  (∀ rp ∈ db.rolePermissions, rp.permission ∈ db.permissions)

instance (db : DB) : Decidable (PermTableWF db) := by
  unfold PermTableWF
  infer_instance

/-! Concrete rows and databases used as counterexamples and witnesses. -/

/-- An inactive role used by the C1 counterexample. -/
def ghostRole : Role :=
  { id := 1, name := "Ghost", description := "", is_active := false }

/-- A catalog permission used by the concrete databases. -/
def viewUsersPerm : Permission :=
  { id := 1, name := "Can view users", description := "", category := "",
    codename := "view_users", is_active := true }

/-- Database where user 7's only role grant goes through an INACTIVE role. -/
def c1DB : DB :=
  { permissions := [viewUsersPerm],
    roles := [ghostRole],
    rolePermissions := [{ role := ghostRole, permission := viewUsersPerm }],
    userRoles := [{ user_id := 7, role := ghostRole, is_active := true }],
    permSeq := 2, roleSeq := 2 }

/-- An active "Auditor" role used by the fallback examples. -/
def auditorRole : Role :=
  { id := 3, name := "Auditor", description := "", is_active := true }

/-- Database where user 7 has NO UserRole rows, but the legacy integer role 3
maps to the active "Auditor" role which grants view_users. -/
def fallbackDB : DB :=
  { permissions := [viewUsersPerm],
    roles := [auditorRole],
    rolePermissions := [{ role := auditorRole, permission := viewUsersPerm }],
    userRoles := [],
    permSeq := 2, roleSeq := 2 }

/-- The user with legacy integer role 3 and no assignments. -/
def fallbackUser : User := { id := 7, role := 3 }

/-- An API-path request by user 7, used by the C5 witness. -/
def c5Req : Request :=
  { path := "/api/users/", method := "POST", user := some { id := 7, role := 0 },
    headers := [] }

/-- A browser-path request by the fallback user, used by the C6 witness. -/
def c6Req : Request :=
  { path := "/users/", method := "GET", user := some fallbackUser, headers := [] }

/-- An empty database, used to instantiate hypotheses concretely. -/
def emptyDB : DB :=
  { permissions := [], roles := [], rolePermissions := [], userRoles := [],
    permSeq := 1, roleSeq := 1 }

/-- Declarative description of a first-match prefix lookup: the table splits
around an entry whose key prefixes the path, every entry listed before it does
not match, and the result is that entry's method lookup. -/
def FirstPrefixMatch (path method : String) (res : Option String) : Prop :=
  ∃ pre e post, permission_map = pre ++ e :: post ∧
    strStartsWith path e.1 = true ∧
    (∀ f ∈ pre, strStartsWith path f.1 = false) ∧
    methodGet e.2 method = res

/-- Declarative membership in the my-permissions response, following the
spec's wording: a codename reachable through one of the user's active UserRole
rows, or, when the user has none, through the active Role named by the legacy
integer-role table. -/
def ResolvedMem (db : DB) (u : User) (c : String) : Prop :=
  (∃ ur ∈ db.userRoles, ur.user_id = u.id ∧ ur.is_active = true ∧
    ∃ rp ∈ db.rolePermissions, rp.role.id = ur.role.id ∧ rp.permission.codename = c) ∨
  ((∀ ur ∈ db.userRoles, ur.user_id = u.id → ur.is_active = false) ∧
    ∃ rname, ROLE_NAME_BY_ID u.role = some rname ∧
      ∃ robj, (db.roles.find? fun r => r.name == rname && r.is_active) = some robj ∧
        ∃ rp ∈ db.rolePermissions, rp.role.id = robj.id ∧ rp.permission.codename = c)

/-- Primary-key and referential-integrity constraints the Django models
enforce on the tables the seeding command touches: ids are unique and below
the table's sequence, and RolePermission rows reference existing rows. -/
def SetupWF (db : DB) : Prop :=
  (∀ p ∈ db.permissions, p.id < db.permSeq) ∧
  (∀ p ∈ db.permissions, ∀ q ∈ db.permissions, p.id = q.id → p = q) ∧
  (∀ r ∈ db.roles, r.id < db.roleSeq) ∧
  (∀ r ∈ db.roles, ∀ s ∈ db.roles, r.id = s.id → r = s) ∧
  (∀ rp ∈ db.rolePermissions, rp.role ∈ db.roles) ∧
  (∀ rp ∈ db.rolePermissions, rp.permission ∈ db.permissions)

instance (db : DB) : Decidable (SetupWF db) := by
  unfold SetupWF
  infer_instance

/-- Every codename of the seed catalog is present in the Permission table. -/
def PermsSeeded (db : DB) : Prop :=
  ∀ pd ∈ permissions_data, ∃ p ∈ db.permissions, p.codename = pd.1

/-- The reconciled state of one seeded role: the role is found by name, every
desired codename resolves to a permission linked to the role, and the role has
no link outside the desired set (empty codenames excepted, as the cleanup loop
skips falsy codenames). -/
def RoleSeeded (db : DB) (name : String) (desired : List String) : Prop :=
  ∃ r, (db.roles.find? fun x => x.name == name) = some r ∧
    (∀ c ∈ desired, ∃ p, (db.permissions.find? fun q => q.codename == c) = some p ∧
      (db.rolePermissions.any fun rp =>
        rp.role.id == r.id && rp.permission.id == p.id) = true) ∧
    (∀ rp ∈ db.rolePermissions, rp.role.id = r.id →
      rp.permission.codename = "" ∨ rp.permission.codename ∈ desired)

/-- The post-state the seeding command establishes and then preserves. -/
def Seeded (db : DB) : Prop :=
  PermsSeeded db ∧
  RoleSeeded db "Chief Officer" chief_permissions ∧
  RoleSeeded db "Accountant Officer" accountant_permissions ∧
  RoleSeeded db "Auditor" auditor_permissions ∧
  RoleSeeded db "Clerk" clerk_permissions

/-! ## Helper lemmas -/

/-- Totality of the lexicographic character-list order. -/
theorem charListLe_total : ∀ as bs : List Char,
    charListLe as bs = true ∨ charListLe bs as = true := by
  intro as
  induction as with
  | nil => intro bs; left; rfl
  | cons a as ih =>
    intro bs
    cases bs with
    | nil => right; rfl
    | cons b bs' =>
      by_cases hab : a < b
      · left; simp [charListLe, hab]
      · by_cases hba : b < a
        · right; simp [charListLe, hba]
        · have heq : a = b := le_antisymm (not_lt.mp hba) (not_lt.mp hab)
          subst heq
          rcases ih bs' with h | h
          · left; simp [charListLe, lt_irrefl, h]
          · right; simp [charListLe, lt_irrefl, h]

/-- Transitivity of the lexicographic character-list order. -/
theorem charListLe_trans : ∀ as bs cs : List Char,
    charListLe as bs = true → charListLe bs cs = true → charListLe as cs = true := by
  intro as
  induction as with
  | nil => intro bs cs _ _; rfl
  | cons a as ih =>
    intro bs cs h1 h2
    cases bs with
    | nil => exact absurd h1 (by simp [charListLe])
    | cons b bs' =>
      cases cs with
      | nil => exact absurd h2 (by simp [charListLe])
      | cons c cs' =>
        rw [charListLe] at h1 h2 ⊢
        by_cases hab : a < b
        · by_cases hbc : b < c
          · rw [if_pos (hab.trans hbc)]
          · rw [if_neg hbc] at h2
            by_cases hbec : b == c
            · have : b = c := by simpa using hbec
              subst this
              rw [if_pos hab]
            · rw [if_neg hbec] at h2
              cases h2
        · rw [if_neg hab] at h1
          by_cases habe : a == b
          · have : a = b := by simpa using habe
            subst this
            rw [if_pos habe] at h1
            by_cases hbc : a < c
            · rw [if_pos hbc]
            · rw [if_neg hbc] at h2 ⊢
              by_cases hbec : a == c
              · rw [if_pos hbec] at h2 ⊢
                exact ih bs' cs' h1 h2
              · rw [if_neg hbec] at h2
                cases h2
          · rw [if_neg habe] at h1
            cases h1

instance : IsTotal String (fun a b => strLe a b = true) :=
  ⟨fun a b => charListLe_total a.data b.data⟩

instance : IsTrans String (fun a b => strLe a b = true) :=
  ⟨fun _ _ _ h1 h2 => charListLe_trans _ _ _ h1 h2⟩

/-- The sorted-set model really is sorted. -/
theorem sortedDedup_sorted (l : List String) :
    List.Sorted (fun a b => strLe a b = true) (sortedDedup l) :=
  List.sorted_insertionSort _ _

/-- The sorted-set model has no duplicates. -/
theorem sortedDedup_nodup (l : List String) : (sortedDedup l).Nodup :=
  (List.perm_insertionSort _ _).nodup_iff.mpr l.nodup_dedup

theorem mem_sortedDedup {c : String} {l : List String} :
    c ∈ sortedDedup l ↔ c ∈ l := by
  unfold sortedDedup
  rw [List.mem_insertionSort, List.mem_dedup]

/-- Membership in the list computed by the resolver's direct path, for a user
having at least one active UserRole row. -/
theorem resolvePermissions_of_active (db : DB) (u : User) (c : String)
    (h : ∃ ur ∈ db.userRoles, ur.user_id = u.id ∧ ur.is_active = true) :
    (c ∈ resolvePermissions db u ↔ direct_effective_permission db u.id c = true) := by
  obtain ⟨ur0, hur0, huid0, hact0⟩ := h
  have hmem0 : ur0 ∈ db.userRoles.filter fun ur => ur.user_id == u.id && ur.is_active := by
    simp [List.mem_filter, hur0, huid0, hact0]
  have hne : ((db.userRoles.filter fun ur => ur.user_id == u.id && ur.is_active).map
      fun ur => ur.role.id).isEmpty = false := by
    rw [List.isEmpty_eq_false]
    intro hnil
    have := List.mem_map_of_mem (fun ur : UserRole => ur.role.id) hmem0
    rw [hnil] at this
    exact absurd this (List.not_mem_nil _)
  simp only [resolvePermissions, hne, Bool.not_false, if_true]
  rw [mem_sortedDedup]
  simp only [direct_effective_permission, List.mem_map, List.mem_filter,
    List.any_eq_true, Bool.and_eq_true, beq_iff_eq, List.contains,
    List.elem_eq_mem, decide_eq_true_eq, List.mem_map, List.mem_filter]
  constructor
  · rintro ⟨rp, ⟨hrp, ur', ⟨hur', h1, h2⟩, h3⟩, hc⟩
    exact ⟨ur', hur', ⟨h1, h2⟩, rp, hrp, h3.symm, hc⟩
  · rintro ⟨ur', hur', ⟨h1, h2⟩, rp, hrp, h3, hc⟩
    exact ⟨rp, ⟨hrp, ur', ⟨hur', h1, h2⟩, h3.symm⟩, hc⟩

/-- A user with no active UserRole rows fails `_user_has_permission` on every
codename: the decorator layer never consults the legacy fallback. -/
theorem user_has_permission_of_no_active (db : DB) (uid : Nat) (c : String)
    (h : ∀ ur ∈ db.userRoles, ur.user_id = uid → ur.is_active = false) :
    user_has_permission db uid c = false := by
  unfold user_has_permission
  have hfil : (db.userRoles.filter fun ur => ur.user_id == uid && ur.is_active) = [] := by
    rw [List.filter_eq_nil_iff]
    intro ur hur
    simp only [Bool.and_eq_true, beq_iff_eq, not_and]
    intro huid
    simp [h ur hur huid]
  cases hf : db.permissions.find? fun p => p.codename == c with
  | none => rfl
  | some permission => simp [hfil]

/-! ## Claim theorems -/

/-- Claim C1, counterexample: in `c1DB`, user 7's only grant of "view_users"
goes through a role whose `Role.is_active` is false, yet the resolver (the
my-permissions endpoint) still lists it, while the spec's wording (an active
UserRole pointing to an ACTIVE Role) excludes it.  The claim as stated is
therefore false on the code. -/
theorem C1_counterexample :
    "view_users" ∈ resolvePermissions c1DB { id := 7, role := 0 } ∧
    spec_effective_permission c1DB 7 "view_users" = false := by
  constructor
  · decide
  · decide

/-- Claim C1, amended: for every user having at least one active UserRole row,
the resolved effective permission set equals the union of the permissions of
exactly those roles R for which the user has a UserRole row with
is_active=true — regardless of the Role row's own is_active flag, which the
direct resolution path never consults. -/
theorem C1_amended (db : DB) (u : User) (c : String)
    (h : ∃ ur ∈ db.userRoles, ur.user_id = u.id ∧ ur.is_active = true) :
    c ∈ resolvePermissions db u ↔ direct_effective_permission db u.id c = true :=
  resolvePermissions_of_active db u c h

/-- Witness for C1_amended at the concrete database `c1DB`. -/
theorem C1_amended_witness :
    (∃ ur ∈ c1DB.userRoles, ur.user_id = 7 ∧ ur.is_active = true) ∧
    ("view_users" ∈ resolvePermissions c1DB { id := 7, role := 0 } ↔
      direct_effective_permission c1DB 7 "view_users" = true) :=
  ⟨by decide, C1_amended c1DB { id := 7, role := 0 } "view_users" (by decide)⟩

/-- Under the Permission table's declared constraints, `_user_has_permission`
computes exactly direct-path effective membership (no Role.is_active check,
no fallback). -/
theorem user_has_permission_iff_direct (db : DB) (uid : Nat) (c : String)
    (hwf : PermTableWF db) :
    (user_has_permission db uid c = true ↔ direct_effective_permission db uid c = true) := by
  obtain ⟨hcode, hid, hint⟩ := hwf
  unfold user_has_permission direct_effective_permission
  cases hf : db.permissions.find? fun p => p.codename == c with
  | none =>
    rw [List.find?_eq_none] at hf
    constructor
    · intro hx; cases hx
    · intro hx
      simp only [List.any_eq_true, Bool.and_eq_true, beq_iff_eq] at hx
      obtain ⟨ur, hur, ⟨huid, hact⟩, rp, hrp, hrid, hcc⟩ := hx
      exact absurd (by simp [hcc] : (rp.permission.codename == c) = true)
        (hf rp.permission (hint rp hrp))
  | some P =>
    have hPmem := List.mem_of_find?_eq_some hf
    have hPc : P.codename = c := by simpa using List.find?_some hf
    simp only [List.any_eq_true, List.mem_filter, Bool.and_eq_true, beq_iff_eq]
    constructor
    · rintro ⟨ur, ⟨hur, huid, hact⟩, rp, hrp, hrid, hpid⟩
      refine ⟨ur, hur, ⟨huid, hact⟩, rp, hrp, hrid, ?_⟩
      have : rp.permission = P := hid rp.permission (hint rp hrp) P hPmem hpid
      rw [this, hPc]
    · rintro ⟨ur, hur, ⟨huid, hact⟩, rp, hrp, hrid, hcc⟩
      refine ⟨ur, ⟨hur, huid, hact⟩, rp, hrp, hrid, ?_⟩
      have : rp.permission = P := hcode rp.permission (hint rp hrp) P hPmem (by rw [hcc, hPc])
      rw [this]

/-- Claim C2, counterexample: in `fallbackDB` user 7 has zero UserRole rows and
legacy role 3 ("Auditor"); the my-permissions resolution lists "view_users"
through the fallback, but the decorator-layer `_user_has_permission` returns
false — the two disagree, refuting the claimed equivalence. -/
theorem C2_counterexample :
    user_has_permission fallbackDB 7 "view_users" = false ∧
    "view_users" ∈ resolvePermissions fallbackDB fallbackUser := by
  constructor
  · decide
  · decide

/-- Claim C2, amended: under the Permission table's declared constraints,
`_user_has_permission` agrees with membership in the my-permissions resolution
exactly for users with at least one active UserRole row; for a user with zero
active UserRole rows `_user_has_permission` is false for every codename, even
when the legacy integer-role fallback makes the resolution non-empty. -/
theorem C2_amended (db : DB) (u : User) (c : String) (hwf : PermTableWF db) :
    ((∃ ur ∈ db.userRoles, ur.user_id = u.id ∧ ur.is_active = true) →
      (user_has_permission db u.id c = true ↔ c ∈ resolvePermissions db u)) ∧
    ((∀ ur ∈ db.userRoles, ur.user_id = u.id → ur.is_active = false) →
      user_has_permission db u.id c = false) := by
  constructor
  · intro h
    rw [resolvePermissions_of_active db u c h]
    exact user_has_permission_iff_direct db u.id c hwf
  · exact user_has_permission_of_no_active db u.id c

/-- Witness for C2_amended at the concrete database `fallbackDB`. -/
theorem C2_amended_witness :
    PermTableWF fallbackDB ∧
    (∀ ur ∈ fallbackDB.userRoles, ur.user_id = 7 → ur.is_active = false) ∧
    user_has_permission fallbackDB 7 "view_users" = false :=
  ⟨by decide, by decide,
    (C2_amended fallbackDB fallbackUser "view_users" (by decide)).2 (by decide)⟩

/-- Prefix transitivity for the Python `startswith` model. -/
theorem strStartsWith_trans {a b c : String}
    (h1 : strStartsWith a b = true) (h2 : strStartsWith b c = true) :
    strStartsWith a c = true := by
  simp only [strStartsWith, List.isPrefixOf_iff_prefix] at *
  exact h2.trans h1

/-- Every key of the permission table starts with "/api/". -/
theorem permission_map_keys_api :
    ∀ e ∈ permission_map, strStartsWith e.1 "/api/" = true := by decide

/-- No key of the permission table and no skip-list entry is a prefix of the
other. -/
theorem permission_map_skip_disjoint :
    ∀ e ∈ permission_map, ∀ s ∈ skip_paths,
      s.data.isPrefixOf e.1.data = false ∧ e.1.data.isPrefixOf s.data = false := by decide

/-- A path/method pair that resolves to a required permission is an "/api/"
path and is not on the middleware's skip list. -/
theorem required_permission_path_shape (path method p : String)
    (h : get_required_permission path method = some p) :
    strStartsWith path "/api/" = true ∧ should_skip_permission_check path = false := by
  unfold get_required_permission at h
  have main : ∃ e ∈ permission_map, strStartsWith path e.1 = true := by
    cases hf : permission_map.find? fun e => e.1 == path with
    | some e =>
      have hmem := List.mem_of_find?_eq_some hf
      have heq : e.1 = path := by simpa using List.find?_some hf
      refine ⟨e, hmem, ?_⟩
      rw [heq]
      simp [strStartsWith, List.isPrefixOf_iff_prefix]
    | none =>
      rw [hf] at h
      cases hf2 : permission_map.find? fun e => strStartsWith path e.1 with
      | some e =>
        have h1 := List.mem_of_find?_eq_some hf2
        have h2 := List.find?_some hf2
        exact ⟨e, h1, h2⟩
      | none =>
        rw [hf2] at h
        cases h
  obtain ⟨e, hmem, hpre⟩ := main
  constructor
  · exact strStartsWith_trans hpre (permission_map_keys_api e hmem)
  · unfold should_skip_permission_check
    rw [List.any_eq_false]
    intro s hs
    simp only [Bool.not_eq_true]
    by_contra hcon
    rw [Bool.not_eq_false] at hcon
    have hsp : s.data <+: path.data := by
      simpa [strStartsWith, List.isPrefixOf_iff_prefix] using hcon
    have hep : e.1.data <+: path.data := by
      simpa [strStartsWith, List.isPrefixOf_iff_prefix] using hpre
    have hd := permission_map_skip_disjoint e hmem s hs
    rcases List.prefix_or_prefix_of_prefix hsp hep with hx | hx
    · rw [← List.isPrefixOf_iff_prefix] at hx
      rw [hd.1] at hx
      cases hx
    · rw [← List.isPrefixOf_iff_prefix] at hx
      rw [hd.2] at hx
      cases hx

/-- Claim C10: neither request-time enforcement path consults the legacy
integer role field.  A user with zero active UserRole rows fails
`_user_has_permission` on every codename, and the middleware answers the
API-form 403 on every request whose path/method maps to a required
permission — even though the same user's my-permissions endpoint may list
that permission via the legacy fallback. -/
theorem C10_theorem (db : DB) (u : User) (path method : String)
    (hdrs : List (String × String))
    (h : ∀ ur ∈ db.userRoles, ur.user_id = u.id → ur.is_active = false) :
    (∀ c, user_has_permission db u.id c = false) ∧
    (∀ p, get_required_permission path method = some p →
      rbac_middleware db { path := path, method := method, user := some u, headers := hdrs } =
        Response.json 403 "Access Denied"
          "You do not have permission to access this resource.") := by
  constructor
  · intro c
    exact user_has_permission_of_no_active db u.id c h
  · intro p hp
    obtain ⟨hapi, hskip⟩ := required_permission_path_shape path method p hp
    have hfil : (db.userRoles.filter fun ur => ur.user_id == u.id && ur.is_active) = [] := by
      rw [List.filter_eq_nil_iff]
      intro ur hur
      simp only [Bool.and_eq_true, beq_iff_eq, not_and]
      intro huid
      simp [h ur hur huid]
    have hchk : check_api_permission db u.id path method = false := by
      unfold check_api_permission
      rw [hp, hfil]
      rfl
    unfold rbac_middleware
    simp [hskip, hapi, hchk, access_denied_response]

/-- Witness for C10_theorem: in `fallbackDB` user 7 has no UserRole rows; a
GET to /api/users/ requires view_users and is denied by the middleware. -/
theorem C10_witness :
    (∀ ur ∈ fallbackDB.userRoles, ur.user_id = 7 → ur.is_active = false) ∧
    get_required_permission "/api/users/" "GET" = some "view_users" ∧
    rbac_middleware fallbackDB
        { path := "/api/users/", method := "GET", user := some fallbackUser, headers := [] } =
      Response.json 403 "Access Denied"
        "You do not have permission to access this resource." :=
  ⟨by decide, by decide,
    (C10_theorem fallbackDB fallbackUser "/api/users/" "GET" [] (by decide)).2
      "view_users" (by decide)⟩

/-- Claim C3, counterexample: the claim predicts that a GET whose path
strictly extends '/api/settings/image-path/' resolves, by longest matching
prefix, to that entry and hence to NO required permission; the code's scan in
table insertion order instead hits '/api/settings/' first and requires
view_settings. -/
theorem C3_counterexample :
    get_required_permission "/api/settings/image-path/extra" "GET" = some "view_settings" ∧
    get_required_permission "/api/settings/image-path/extra" "GET" ≠ none := by
  constructor
  · decide
  · decide

/-- Claim C3, amended: the middleware determines the required permission by an
exact match of the full path first and, when no exact match exists, by the
FIRST matching prefix in table insertion order (not the longest); if no entry
matches, or the matched entry maps the method to no permission, the request is
allowed.  In particular a GET strictly extending '/api/settings/image-path/'
resolves to the earlier '/api/settings/' entry, requiring view_settings. -/
theorem C3_amended :
    (∀ path method,
      (∃ e ∈ permission_map, e.1 = path ∧
        get_required_permission path method = methodGet e.2 method) ∨
      ((∀ e ∈ permission_map, e.1 ≠ path) ∧
        (FirstPrefixMatch path method (get_required_permission path method) ∨
          ((∀ e ∈ permission_map, strStartsWith path e.1 = false) ∧
            get_required_permission path method = none)))) ∧
    (∀ db u path method hdrs,
      get_required_permission path method = none →
      rbac_middleware db { path := path, method := method, user := some u, headers := hdrs } =
        Response.handler) ∧
    get_required_permission "/api/settings/image-path/extra" "GET" = some "view_settings" := by
  refine ⟨?_, ?_, by decide⟩
  · intro path method
    cases hf : permission_map.find? fun e => e.1 == path with
    | some e =>
      left
      have hmem := List.mem_of_find?_eq_some hf
      have heq : e.1 = path := by simpa using List.find?_some hf
      refine ⟨e, hmem, heq, ?_⟩
      unfold get_required_permission
      rw [hf]
    | none =>
      right
      have hne : ∀ e ∈ permission_map, e.1 ≠ path := by
        rw [List.find?_eq_none] at hf
        intro e he
        simpa using hf e he
      refine ⟨hne, ?_⟩
      cases hf2 : permission_map.find? fun e => strStartsWith path e.1 with
      | some e =>
        left
        have hres : get_required_permission path method = methodGet e.2 method := by
          unfold get_required_permission
          rw [hf, hf2]
        rw [List.find?_eq_some] at hf2
        obtain ⟨hpe, pre, post, hsplit, hprev⟩ := hf2
        refine ⟨pre, e, post, hsplit, hpe, ?_, ?_⟩
        · intro f hfmem
          simpa using hprev f hfmem
        · rw [hres]
      | none =>
        right
        constructor
        · rw [List.find?_eq_none] at hf2
          intro e he
          simpa using hf2 e he
        · unfold get_required_permission
          rw [hf, hf2]
  · intro db u path method hdrs hp
    unfold rbac_middleware
    cases hskip : should_skip_permission_check path with
    | true => rfl
    | false =>
      cases hapi : strStartsWith path "/api/" with
      | true =>
        have hchk : check_api_permission db u.id path method = true := by
          unfold check_api_permission
          rw [hp]
        simp [hskip, hapi, hchk]
      | false => simp [hskip, hapi]

/-- Witness for C3_amended: the exact path '/api/settings/image-path/' maps
GET to no permission and the middleware lets the request through. -/
theorem C3_witness :
    get_required_permission "/api/settings/image-path/" "GET" = none ∧
    rbac_middleware emptyDB
        { path := "/api/settings/image-path/", method := "GET",
          user := some { id := 0, role := 0 }, headers := [] } = Response.handler :=
  ⟨by decide,
    C3_amended.2.1 emptyDB { id := 0, role := 0 } "/api/settings/image-path/" "GET" []
      (by decide)⟩

/-- With no active UserRole rows the resolver's role-id list is empty. -/
theorem userRoles_filter_nil (db : DB) (uid : Nat)
    (h : ∀ ur ∈ db.userRoles, ur.user_id = uid → ur.is_active = false) :
    (db.userRoles.filter fun ur => ur.user_id == uid && ur.is_active) = [] := by
  rw [List.filter_eq_nil_iff]
  intro ur hur
  simp only [Bool.and_eq_true, beq_iff_eq, not_and]
  intro huid
  simp [h ur hur huid]

/-- Fallback shape, case: the legacy integer maps to no role name. -/
theorem resolvePermissions_fallback_noname (db : DB) (u : User)
    (h : ∀ ur ∈ db.userRoles, ur.user_id = u.id → ur.is_active = false)
    (hr : ROLE_NAME_BY_ID u.role = none) :
    resolvePermissions db u = [] := by
  simp [resolvePermissions, userRoles_filter_nil db u.id h, hr]

/-- Fallback shape, case: no active role with the mapped name exists. -/
theorem resolvePermissions_fallback_norole (db : DB) (u : User) (rname : String)
    (h : ∀ ur ∈ db.userRoles, ur.user_id = u.id → ur.is_active = false)
    (hr : ROLE_NAME_BY_ID u.role = some rname)
    (hf : (db.roles.find? fun r => r.name == rname && r.is_active) = none) :
    resolvePermissions db u = [] := by
  simp [resolvePermissions, userRoles_filter_nil db u.id h, hr, hf]

/-- Fallback shape, case: an active role with the mapped name is found; the
response is exactly that role's permission set. -/
theorem resolvePermissions_fallback (db : DB) (u : User) (rname : String) (robj : Role)
    (h : ∀ ur ∈ db.userRoles, ur.user_id = u.id → ur.is_active = false)
    (hr : ROLE_NAME_BY_ID u.role = some rname)
    (hf : (db.roles.find? fun r => r.name == rname && r.is_active) = some robj) :
    ∀ c, (c ∈ resolvePermissions db u ↔
      ∃ rp ∈ db.rolePermissions, rp.role.id = robj.id ∧ rp.permission.codename = c) := by
  intro c
  have hshape : resolvePermissions db u = sortedDedup ((db.rolePermissions.filter
      fun rp => rp.role.id == robj.id).map fun rp => rp.permission.codename) := by
    simp [resolvePermissions, userRoles_filter_nil db u.id h, hr, hf]
  rw [hshape, mem_sortedDedup]
  simp only [List.mem_map, List.mem_filter, beq_iff_eq]
  constructor
  · rintro ⟨rp, ⟨hrp, hrid⟩, hcc⟩
    exact ⟨rp, hrp, hrid, hcc⟩
  · rintro ⟨rp, hrp, hrid, hcc⟩
    exact ⟨rp, ⟨hrp, hrid⟩, hcc⟩

/-- Claim C4: fallback exclusivity.  With zero active UserRole rows and legacy
role 3, the resolution equals exactly the permission set of the active Role
found under the name "Auditor"; and with at least one active UserRole row the
result does not depend on the legacy integer role field at all. -/
theorem C4_theorem (db : DB) (u : User) :
    ((∀ ur ∈ db.userRoles, ur.user_id = u.id → ur.is_active = false) → u.role = 3 →
      ∀ robj, (db.roles.find? fun r => r.name == "Auditor" && r.is_active) = some robj →
      ∀ c, (c ∈ resolvePermissions db u ↔
        ∃ rp ∈ db.rolePermissions, rp.role.id = robj.id ∧ rp.permission.codename = c)) ∧
    ((∃ ur ∈ db.userRoles, ur.user_id = u.id ∧ ur.is_active = true) →
      ∀ n, resolvePermissions db { u with role := n } = resolvePermissions db u) := by
  constructor
  · intro h h3 robj hf c
    exact resolvePermissions_fallback db u "Auditor" robj h (by rw [h3]; rfl) hf c
  · rintro ⟨ur0, hur0, huid0, hact0⟩ n
    have hmem0 : ur0 ∈ db.userRoles.filter fun ur => ur.user_id == u.id && ur.is_active := by
      simp [List.mem_filter, hur0, huid0, hact0]
    have hne : ((db.userRoles.filter fun ur => ur.user_id == u.id && ur.is_active).map
        fun ur => ur.role.id).isEmpty = false := by
      rw [List.isEmpty_eq_false]
      intro hnil
      have := List.mem_map_of_mem (fun ur : UserRole => ur.role.id) hmem0
      rw [hnil] at this
      exact absurd this (List.not_mem_nil _)
    show resolvePermissions db { u with role := n } = resolvePermissions db u
    simp only [resolvePermissions, hne, Bool.not_false, if_true]

/-- Witness for C4_theorem at `fallbackDB`: user 7 with legacy role 3 and no
UserRole rows resolves exactly to the active Auditor role's permissions. -/
theorem C4_witness :
    (∀ ur ∈ fallbackDB.userRoles, ur.user_id = 7 → ur.is_active = false) ∧
    fallbackUser.role = 3 ∧
    (fallbackDB.roles.find? fun r => r.name == "Auditor" && r.is_active) = some auditorRole ∧
    ("view_users" ∈ resolvePermissions fallbackDB fallbackUser ↔
      ∃ rp ∈ fallbackDB.rolePermissions,
        rp.role.id = auditorRole.id ∧ rp.permission.codename = "view_users") :=
  ⟨by decide, by decide, by decide,
    (C4_theorem fallbackDB fallbackUser).1 (by decide) (by decide) auditorRole (by decide)
      "view_users"⟩

/-- Claim C7: a codename absent from the Permission catalog never grants and
never raises — the decorator check is false, the middleware role check is
false, and an API request requiring such a codename is refused by
`_check_api_permission`. -/
theorem C7_theorem (db : DB) (c : String)
    (h : ∀ p ∈ db.permissions, p.codename ≠ c) :
    (∀ uid, user_has_permission db uid c = false) ∧
    (∀ role, role_has_permission db role c = false) ∧
    (∀ uid path method, get_required_permission path method = some c →
      check_api_permission db uid path method = false) := by
  have hf : (db.permissions.find? fun p => p.codename == c) = none := by
    rw [List.find?_eq_none]
    intro p hp
    simpa using h p hp
  have hrole : ∀ role, role_has_permission db role c = false := by
    intro role
    unfold role_has_permission
    rw [hf]
  refine ⟨?_, hrole, ?_⟩
  · intro uid
    unfold user_has_permission
    rw [hf]
  · intro uid path method hreq
    unfold check_api_permission
    rw [hreq]
    cases hemp : (db.userRoles.filter fun ur => ur.user_id == uid && ur.is_active).isEmpty
    · simp only [hemp, Bool.false_eq_true, if_false]
      rw [List.any_eq_false]
      intro ur _
      simp [hrole ur.role]
    · simp [hemp]

/-- Witness for C7_theorem: "no_such_permission" is not in `fallbackDB`'s
catalog; both checks fail closed. -/
theorem C7_witness :
    (∀ p ∈ fallbackDB.permissions, p.codename ≠ "no_such_permission") ∧
    user_has_permission fallbackDB 7 "no_such_permission" = false ∧
    role_has_permission fallbackDB auditorRole "no_such_permission" = false :=
  ⟨by decide,
    (C7_theorem fallbackDB "no_such_permission" (by decide)).1 7,
    (C7_theorem fallbackDB "no_such_permission" (by decide)).2.1 auditorRole⟩

/-- The resolver's output is sorted and duplicate-free in every branch. -/
theorem resolvePermissions_sorted_nodup (db : DB) (u : User) :
    List.Sorted (fun a b => strLe a b = true) (resolvePermissions db u) ∧
    (resolvePermissions db u).Nodup := by
  unfold resolvePermissions
  split
  · dsimp only
    split
    · exact ⟨sortedDedup_sorted _, sortedDedup_nodup _⟩
    · split
      · exact ⟨sortedDedup_sorted _, sortedDedup_nodup _⟩
      · exact ⟨List.sorted_nil, List.nodup_nil⟩
  · dsimp only
    split
    · exact ⟨sortedDedup_sorted _, sortedDedup_nodup _⟩
    · exact ⟨List.sorted_nil, List.nodup_nil⟩

/-- Membership in the resolver's output matches the declarative two-tier
description (active assignments first, legacy fallback only when none). -/
theorem mem_resolvePermissions (db : DB) (u : User) (c : String) :
    c ∈ resolvePermissions db u ↔ ResolvedMem db u c := by
  by_cases h : ∃ ur ∈ db.userRoles, ur.user_id = u.id ∧ ur.is_active = true
  · rw [resolvePermissions_of_active db u c h]
    unfold ResolvedMem
    constructor
    · intro hd
      left
      simp only [direct_effective_permission, List.any_eq_true, Bool.and_eq_true,
        beq_iff_eq] at hd
      obtain ⟨ur, hur, ⟨huid, hact⟩, rp, hrp, hrid, hcc⟩ := hd
      exact ⟨ur, hur, huid, hact, rp, hrp, hrid, hcc⟩
    · intro hrm
      rcases hrm with ⟨ur, hur, huid, hact, rp, hrp, hrid, hcc⟩ | ⟨hno, _⟩
      · simp only [direct_effective_permission, List.any_eq_true, Bool.and_eq_true,
          beq_iff_eq]
        exact ⟨ur, hur, ⟨huid, hact⟩, rp, hrp, hrid, hcc⟩
      · obtain ⟨ur, hur, huid, hact⟩ := h
        rw [hno ur hur huid] at hact
        cases hact
  · have hno : ∀ ur ∈ db.userRoles, ur.user_id = u.id → ur.is_active = false := by
      intro ur hur huid
      by_contra hcon
      rw [Bool.not_eq_false] at hcon
      exact h ⟨ur, hur, huid, hcon⟩
    cases hr : ROLE_NAME_BY_ID u.role with
    | none =>
      rw [resolvePermissions_fallback_noname db u hno hr]
      unfold ResolvedMem
      simp only [List.not_mem_nil, false_iff]
      rintro (⟨ur, hur, huid, hact, _⟩ | ⟨_, rname, hr', _⟩)
      · rw [hno ur hur huid] at hact
        cases hact
      · rw [hr] at hr'
        cases hr'
    | some rname =>
      cases hfind : db.roles.find? fun r => r.name == rname && r.is_active with
      | none =>
        rw [resolvePermissions_fallback_norole db u rname hno hr hfind]
        unfold ResolvedMem
        simp only [List.not_mem_nil, false_iff]
        rintro (⟨ur, hur, huid, hact, _⟩ | ⟨_, rname', hr', robj, hfind', _⟩)
        · rw [hno ur hur huid] at hact
          cases hact
        · rw [hr] at hr'
          injection hr' with hr''
          subst hr''
          rw [hfind] at hfind'
          cases hfind'
      | some robj =>
        rw [resolvePermissions_fallback db u rname robj hno hr hfind c]
        unfold ResolvedMem
        constructor
        · intro hx
          right
          exact ⟨hno, rname, hr, robj, hfind, hx⟩
        · rintro (⟨ur, hur, huid, hact, _⟩ | ⟨_, rname', hr', robj', hfind', hx⟩)
          · rw [hno ur hur huid] at hact
            cases hact
          · rw [hr] at hr'
            injection hr' with hr''
            subst hr''
            rw [hfind] at hfind'
            injection hfind' with hf''
            subst hf''
            exact hx

/-- Claim C8: the my-permissions endpoint returns the de-duplicated resolved
codename set in sorted order (legacy fallback included) for an authenticated
user, and the empty list — not an error — for an unauthenticated caller. -/
theorem C8_theorem (db : DB) (user : Option User) :
    (user = none → mePermissions db user = []) ∧
    (∀ u, user = some u →
      List.Sorted (fun a b => strLe a b = true) (mePermissions db user) ∧
      (mePermissions db user).Nodup ∧
      (∀ c, c ∈ mePermissions db user ↔ ResolvedMem db u c)) := by
  constructor
  · intro h
    subst h
    rfl
  · intro u h
    subst h
    exact ⟨(resolvePermissions_sorted_nodup db u).1,
      (resolvePermissions_sorted_nodup db u).2,
      fun c => mem_resolvePermissions db u c⟩

/-- Witness for C8_theorem: the unauthenticated branch on `emptyDB` and the
authenticated branch on `fallbackDB`. -/
theorem C8_witness :
    mePermissions emptyDB none = [] ∧
    (mePermissions fallbackDB (some fallbackUser)).Nodup :=
  ⟨(C8_theorem emptyDB none).1 rfl,
    ((C8_theorem fallbackDB (some fallbackUser)).2 fallbackUser rfl).2.1⟩

/-- Claim C5: `require_all_permissions` admits exactly the users holding every
listed codename and, on an API-path denial, enumerates exactly the lacking
codenames; `require_any_permission` with the same codenames admits any user
holding at least one. -/
theorem C5_theorem (db : DB) (cs : List String) (u : User) (req : Request)
    (hu : req.user = some u) :
    (has_all_permissions db cs req = Response.handler ↔
      ∀ c ∈ cs, user_has_permission db u.id c = true) ∧
    (strStartsWith req.path "/api/" = true →
      ∀ missing, missing = cs.filter (fun c => !user_has_permission db u.id c) →
        missing ≠ [] →
        (has_all_permissions db cs req =
          Response.json 403 "Access Denied"
            ("You are missing these permissions: " ++ String.intercalate ", " missing) ∧
          ∀ c, (c ∈ missing ↔ c ∈ cs ∧ user_has_permission db u.id c = false))) ∧
    (has_any_permission db cs req = Response.handler ↔
      ∃ c ∈ cs, user_has_permission db u.id c = true) := by
  refine ⟨?_, ?_, ?_⟩
  · unfold has_all_permissions
    rw [hu]
    dsimp only
    cases hmiss : cs.filter (fun c => !user_has_permission db u.id c) with
    | nil =>
      rw [List.filter_eq_nil_iff] at hmiss
      simp only [List.isEmpty_nil, Bool.not_true, Bool.false_eq_true, if_false]
      constructor
      · intro _ c hc
        have := hmiss c hc
        simpa using this
      · intro _
        trivial
    | cons m ms =>
      have hmem : m ∈ cs.filter (fun c => !user_has_permission db u.id c) := by
        rw [hmiss]
        exact List.mem_cons_self m ms
      rw [List.mem_filter] at hmem
      constructor
      · intro hres
        exfalso
        cases hapi : strStartsWith req.path "/api/" <;> simp [hapi] at hres
      · intro hall
        exfalso
        obtain ⟨hmcs, hmf⟩ := hmem
        have := hall m hmcs
        simp [this] at hmf
  · intro hapi missing hmissdef hmissne
    have hne : missing.isEmpty = false := by
      rw [List.isEmpty_eq_false]
      exact hmissne
    constructor
    · unfold has_all_permissions
      rw [hu]
      dsimp only
      rw [← hmissdef, hne, hapi]
      rfl
    · intro c
      rw [hmissdef, List.mem_filter]
      simp [Bool.not_eq_true']
  · unfold has_any_permission
    rw [hu]
    dsimp only
    cases hany : cs.any (fun c => user_has_permission db u.id c) with
    | true =>
      simp only [Bool.not_true, Bool.false_eq_true, if_false]
      rw [List.any_eq_true] at hany
      constructor
      · intro _
        exact hany
      · intro _
        trivial
    | false =>
      rw [List.any_eq_false] at hany
      constructor
      · intro hres
        exfalso
        cases hapi : strStartsWith req.path "/api/" <;> simp [hapi] at hres
      · rintro ⟨c, hc, hcp⟩
        exact absurd hcp (hany c hc)

/-- Witness for C5_theorem: in `c1DB`, user 7 holds view_users but not
edit_users; require-all on the pair answers the API 403 naming exactly
edit_users. -/
theorem C5_witness :
    c5Req.user = some { id := 7, role := 0 } ∧
    strStartsWith c5Req.path "/api/" = true ∧
    ["edit_users"] = (["view_users", "edit_users"].filter
      (fun c => !user_has_permission c1DB 7 c)) ∧
    has_all_permissions c1DB ["view_users", "edit_users"] c5Req =
      Response.json 403 "Access Denied"
        ("You are missing these permissions: " ++ String.intercalate ", " ["edit_users"]) :=
  ⟨rfl, by decide, by decide,
    ((C5_theorem c1DB ["view_users", "edit_users"] { id := 7, role := 0 } c5Req rfl).2.1
      (by decide) ["edit_users"] (by decide) (by decide)).1⟩

/-- Claim C6: decorator responses are classified solely by the "/api/" path
prefix — never by headers: unauthenticated callers get the JSON 401 on API
paths and a login redirect with flash elsewhere; authenticated callers lacking
the grant get the JSON 403 naming the missing permission or role on API paths
and an access-denied redirect with flash elsewhere. -/
theorem C6_theorem (db : DB) (req : Request) :
    (∀ h1 h2 : List (String × String), ∀ c rn,
      has_permission db c { req with headers := h1 } =
        has_permission db c { req with headers := h2 } ∧
      role_required db rn { req with headers := h1 } =
        role_required db rn { req with headers := h2 }) ∧
    (req.user = none →
      (strStartsWith req.path "/api/" = true →
        ∀ c rn, has_permission db c req =
            Response.json 401 "Authentication required"
              "Please login to access this resource." ∧
          role_required db rn req =
            Response.json 401 "Authentication required"
              "Please login to access this resource.") ∧
      (strStartsWith req.path "/api/" = false →
        ∀ c rn, has_permission db c req =
            Response.redirect "login" "Please login to access this resource." ∧
          role_required db rn req =
            Response.redirect "login" "Please login to access this resource.")) ∧
    (∀ u, req.user = some u →
      (∀ c, user_has_permission db u.id c = false →
        (strStartsWith req.path "/api/" = true →
          has_permission db c req =
            Response.json 403 "Access Denied" ("You do not have permission: " ++ c)) ∧
        (strStartsWith req.path "/api/" = false →
          has_permission db c req =
            Response.redirect "access_denied"
              "You do not have permission to access this resource.")) ∧
      (∀ rn, user_has_role db u.id rn = false →
        (strStartsWith req.path "/api/" = true →
          role_required db rn req =
            Response.json 403 "Access Denied"
              ("You do not have the required role: " ++ rn)) ∧
        (strStartsWith req.path "/api/" = false →
          role_required db rn req =
            Response.redirect "access_denied"
              "You do not have permission to access this resource."))) := by
  obtain ⟨path, method, user, headers⟩ := req
  refine ⟨?_, ?_, ?_⟩
  · intro h1 h2 c rn
    exact ⟨rfl, rfl⟩
  · intro hnone
    simp only at hnone
    subst hnone
    constructor
    · intro hapi c rn
      constructor
      · unfold has_permission authentication_required
        simp [hapi]
      · unfold role_required authentication_required
        simp [hapi]
    · intro hapi c rn
      constructor
      · unfold has_permission authentication_required
        simp [hapi]
      · unfold role_required authentication_required
        simp [hapi]
  · intro u hsome
    simp only at hsome
    subst hsome
    constructor
    · intro c hperm
      constructor
      · intro hapi
        unfold has_permission
        simp [hperm, hapi]
      · intro hapi
        unfold has_permission
        simp [hperm, hapi]
    · intro rn hrole
      constructor
      · intro hapi
        unfold role_required
        simp [hrole, hapi]
      · intro hapi
        unfold role_required
        simp [hrole, hapi]

/-- Witness for C6_theorem: the fallback user on a browser path lacking
view_users is redirected to access_denied with the flash message. -/
theorem C6_witness :
    c6Req.user = some fallbackUser ∧
    user_has_permission fallbackDB fallbackUser.id "view_users" = false ∧
    strStartsWith c6Req.path "/api/" = false ∧
    has_permission fallbackDB "view_users" c6Req =
      Response.redirect "access_denied"
        "You do not have permission to access this resource." :=
  ⟨rfl, by decide, by decide,
    (((C6_theorem fallbackDB c6Req).2.2 fallbackUser rfl).1 "view_users" (by decide)).2
      (by decide)⟩

/-! Lemmas for the seeding command: identity on an already-seeded state. -/

/-- Folding a function that fixes the state leaves the state unchanged. -/
theorem foldl_id {α β : Type} (f : β → α → β) (b : β) (l : List α)
    (h : ∀ a ∈ l, f b a = b) : l.foldl f b = b := by
  induction l with
  | nil => rfl
  | cons a l ih =>
    rw [List.foldl_cons, h a (List.mem_cons_self a l)]
    exact ih fun x hx => h x (List.mem_cons_of_mem a hx)

/-- get_or_create of a permission whose codename already exists is a no-op. -/
theorem getOrCreatePermission_id (db : DB) (pd : String × String × String)
    (h : ∃ p ∈ db.permissions, p.codename = pd.1) :
    getOrCreatePermission db pd = db := by
  obtain ⟨p, hp, hc⟩ := h
  have hsome : (db.permissions.find? fun q => q.codename == pd.1).isSome := by
    rw [List.find?_isSome]
    exact ⟨p, hp, by simp [hc]⟩
  unfold getOrCreatePermission
  cases hf : db.permissions.find? fun q => q.codename == pd.1 with
  | none =>
    rw [hf] at hsome
    cases hsome
  | some q => rfl

/-- The permission-catalog loop is a no-op when every codename exists. -/
theorem ensurePerms_id (db : DB) (h : PermsSeeded db) :
    permissions_data.foldl getOrCreatePermission db = db :=
  foldl_id _ _ _ fun pd hpd => getOrCreatePermission_id db pd (h pd hpd)

/-- Assigning an already-linked permission is a no-op. -/
theorem assignPermission_id (role : Role) (db : DB) (c : String) (p : Permission)
    (hf : (db.permissions.find? fun q => q.codename == c) = some p)
    (hex : (db.rolePermissions.any fun rp =>
      rp.role.id == role.id && rp.permission.id == p.id) = true) :
    assignPermission role db c = db := by
  unfold assignPermission
  rw [hf]
  simp [hex]

/-- Seeding a role in an already-reconciled state is a no-op. -/
theorem seedRole_id (db : DB) (name desc : String) (desired : List String)
    (h : RoleSeeded db name desired) : seedRole db name desc desired = db := by
  obtain ⟨r, hfr, hpairs, hclean⟩ := h
  have hg : getOrCreateRole db name desc = (r, db) := by
    unfold getOrCreateRole
    rw [hfr]
  unfold seedRole
  rw [hg]
  dsimp only
  have hfold : desired.foldl (assignPermission r) db = db := by
    apply foldl_id
    intro c hc
    obtain ⟨p, hp1, hp2⟩ := hpairs c hc
    exact assignPermission_id r db c p hp1 hp2
  rw [hfold]
  unfold cleanupRolePermissions
  have hfil : (db.rolePermissions.filter fun rp =>
      !(rp.role.id == r.id && !(rp.permission.codename == "") &&
        !(desired.contains rp.permission.codename))) = db.rolePermissions := by
    rw [List.filter_eq_self]
    intro rp hrp
    by_cases hrid : rp.role.id = r.id
    · rcases hclean rp hrp hrid with hc | hc
      · simp [hc]
      · simp [hc]
    · simp [hrid]
  rw [hfil]

/-- The seeding command fixes every already-seeded state. -/
theorem setup_rbac_id (db : DB) (h : Seeded db) : setup_rbac db = db := by
  obtain ⟨hp, h1, h2, h3, h4⟩ := h
  unfold setup_rbac
  dsimp only
  rw [ensurePerms_id db hp, seedRole_id db _ _ _ h1, seedRole_id db _ _ _ h2,
    seedRole_id db _ _ _ h3, seedRole_id db _ _ _ h4]

/-! Lemmas for the seeding command: state evolution of the permission loop. -/

/-- Tables other than Permission are untouched by a permission step. -/
theorem gcp_frame (db : DB) (pd : String × String × String) :
    (getOrCreatePermission db pd).roles = db.roles ∧
    (getOrCreatePermission db pd).rolePermissions = db.rolePermissions ∧
    (getOrCreatePermission db pd).userRoles = db.userRoles ∧
    (getOrCreatePermission db pd).roleSeq = db.roleSeq := by
  unfold getOrCreatePermission
  cases db.permissions.find? fun q => q.codename == pd.1 with
  | none => exact ⟨rfl, rfl, rfl, rfl⟩
  | some q => exact ⟨rfl, rfl, rfl, rfl⟩

/-- A permission step only appends to the Permission table. -/
theorem gcp_perms_le (db : DB) (pd : String × String × String) :
    db.permissions <+: (getOrCreatePermission db pd).permissions := by
  unfold getOrCreatePermission
  cases db.permissions.find? fun q => q.codename == pd.1 with
  | none => exact ⟨_, rfl⟩
  | some q => exact List.prefix_refl _

/-- After a permission step its codename is present. -/
theorem gcp_seeds (db : DB) (pd : String × String × String) :
    ∃ p ∈ (getOrCreatePermission db pd).permissions, p.codename = pd.1 := by
  unfold getOrCreatePermission
  cases hf : db.permissions.find? fun q => q.codename == pd.1 with
  | none =>
    refine ⟨_, List.mem_append_right _ (List.mem_singleton_self _), rfl⟩
  | some q =>
    have hq := List.find?_some hf
    exact ⟨q, List.mem_of_find?_eq_some hf, by simpa using hq⟩

/-- A permission step preserves the table constraints. -/
theorem gcp_wf (db : DB) (pd : String × String × String) (h : SetupWF db) :
    SetupWF (getOrCreatePermission db pd) := by
  obtain ⟨hb, hinj, hrb, hrinj, hri, hpi⟩ := h
  unfold getOrCreatePermission
  cases db.permissions.find? fun q => q.codename == pd.1 with
  | some q => exact ⟨hb, hinj, hrb, hrinj, hri, hpi⟩
  | none =>
    refine ⟨?_, ?_, hrb, hrinj, hri, ?_⟩
    · intro p hp
      rcases List.mem_append.mp hp with hp | hp
      · exact Nat.lt_succ_of_lt (hb p hp)
      · rw [List.mem_singleton.mp hp]
        exact Nat.lt_succ_self _
    · intro p hp q hq hid
      rcases List.mem_append.mp hp with hp | hp <;>
        rcases List.mem_append.mp hq with hq | hq
      · exact hinj p hp q hq hid
      · rw [List.mem_singleton.mp hq] at hid
        exact absurd hid (Nat.ne_of_lt (hb p hp))
      · rw [List.mem_singleton.mp hp] at hid
        exact absurd hid.symm (Nat.ne_of_lt (hb q hq))
      · rw [List.mem_singleton.mp hp, List.mem_singleton.mp hq]
    · intro rp hrp
      exact List.mem_append_left _ (hpi rp hrp)

/-- A permission step never introduces a duplicate codename. -/
theorem gcp_codenames_nodup (db : DB) (pd : String × String × String)
    (h : (db.permissions.map fun p => p.codename).Nodup) :
    ((getOrCreatePermission db pd).permissions.map fun p => p.codename).Nodup := by
  unfold getOrCreatePermission
  cases hf : db.permissions.find? fun q => q.codename == pd.1 with
  | some q => exact h
  | none =>
    rw [List.find?_eq_none] at hf
    rw [List.map_append, List.nodup_append]
    refine ⟨h, List.nodup_singleton _, ?_⟩
    intro c hc hc'
    rw [List.map_singleton, List.mem_singleton] at hc'
    subst hc'
    obtain ⟨p, hp, hpc⟩ := List.mem_map.mp hc
    exact absurd (by simp [hpc]) (hf p hp)

/-- The whole permission loop: frame over the other tables. -/
theorem gcpFold_frame : ∀ (l : List (String × String × String)) (db : DB),
    (l.foldl getOrCreatePermission db).roles = db.roles ∧
    (l.foldl getOrCreatePermission db).rolePermissions = db.rolePermissions ∧
    (l.foldl getOrCreatePermission db).userRoles = db.userRoles ∧
    (l.foldl getOrCreatePermission db).roleSeq = db.roleSeq := by
  intro l
  induction l with
  | nil => intro db; exact ⟨rfl, rfl, rfl, rfl⟩
  | cons a l ih =>
    intro db
    obtain ⟨h1, h2, h3, h4⟩ := ih (getOrCreatePermission db a)
    obtain ⟨g1, g2, g3, g4⟩ := gcp_frame db a
    exact ⟨h1.trans g1, h2.trans g2, h3.trans g3, h4.trans g4⟩

/-- The whole permission loop only appends to the Permission table. -/
theorem gcpFold_perms_le : ∀ (l : List (String × String × String)) (db : DB),
    db.permissions <+: (l.foldl getOrCreatePermission db).permissions := by
  intro l
  induction l with
  | nil => intro db; exact List.prefix_refl _
  | cons a l ih =>
    intro db
    exact (gcp_perms_le db a).trans (ih (getOrCreatePermission db a))

/-- The whole permission loop seeds every listed codename. -/
theorem gcpFold_seeds : ∀ (l : List (String × String × String)) (db : DB),
    ∀ pd ∈ l, ∃ p ∈ (l.foldl getOrCreatePermission db).permissions, p.codename = pd.1 := by
  intro l
  induction l with
  | nil =>
    intro db pd h
    cases h
  | cons a l ih =>
    intro db pd h
    rcases List.mem_cons.mp h with rfl | h'
    · obtain ⟨p, hp, hc⟩ := gcp_seeds db pd
      exact ⟨p, (gcpFold_perms_le l (getOrCreatePermission db pd)).subset hp, hc⟩
    · exact ih (getOrCreatePermission db a) pd h'

/-- The whole permission loop preserves the table constraints. -/
theorem gcpFold_wf : ∀ (l : List (String × String × String)) (db : DB),
    SetupWF db → SetupWF (l.foldl getOrCreatePermission db) := by
  intro l
  induction l with
  | nil => intro db h; exact h
  | cons a l ih => intro db h; exact ih _ (gcp_wf db a h)

/-- The whole permission loop preserves codename uniqueness. -/
theorem gcpFold_codenames_nodup : ∀ (l : List (String × String × String)) (db : DB),
    (db.permissions.map fun p => p.codename).Nodup →
    ((l.foldl getOrCreatePermission db).permissions.map fun p => p.codename).Nodup := by
  intro l
  induction l with
  | nil => intro db h; exact h
  | cons a l ih => intro db h; exact ih _ (gcp_codenames_nodup db a h)

/-! Lemmas for the seeding command: the role get_or_create step. -/

/-- A membership survives growing the list on the right, for Bool `any`. -/
theorem any_subset {α : Type} {l l' : List α} {q : α → Bool} (h : l ⊆ l')
    (ha : l.any q = true) : l'.any q = true := by
  rw [List.any_eq_true] at *
  obtain ⟨x, hx, hq⟩ := ha
  exact ⟨x, h hx, hq⟩

/-- Tables other than Role are untouched by the role get_or_create. -/
theorem gcr_frame (db : DB) (name desc : String) :
    (getOrCreateRole db name desc).2.permissions = db.permissions ∧
    (getOrCreateRole db name desc).2.rolePermissions = db.rolePermissions ∧
    (getOrCreateRole db name desc).2.userRoles = db.userRoles ∧
    (getOrCreateRole db name desc).2.permSeq = db.permSeq := by
  unfold getOrCreateRole
  cases db.roles.find? fun r => r.name == name with
  | none => exact ⟨rfl, rfl, rfl, rfl⟩
  | some r => exact ⟨rfl, rfl, rfl, rfl⟩

/-- The role get_or_create only appends to the Role table. -/
theorem gcr_roles_le (db : DB) (name desc : String) :
    db.roles <+: (getOrCreateRole db name desc).2.roles := by
  unfold getOrCreateRole
  cases db.roles.find? fun r => r.name == name with
  | none => exact ⟨_, rfl⟩
  | some r => exact List.prefix_refl _

/-- After the role get_or_create, looking the name up finds the returned row. -/
theorem gcr_find (db : DB) (name desc : String) :
    ((getOrCreateRole db name desc).2.roles.find? fun x => x.name == name) =
      some (getOrCreateRole db name desc).1 := by
  unfold getOrCreateRole
  cases hf : db.roles.find? fun r => r.name == name with
  | none =>
    dsimp only
    rw [List.find?_append, hf]
    rw [List.find?_cons_of_pos _ (by simp)]
    rfl
  | some r => exact hf

/-- The returned role row is in the table and carries the requested name. -/
theorem gcr_mem_name (db : DB) (name desc : String) :
    (getOrCreateRole db name desc).1 ∈ (getOrCreateRole db name desc).2.roles ∧
    (getOrCreateRole db name desc).1.name = name := by
  have h := gcr_find db name desc
  exact ⟨List.mem_of_find?_eq_some h, by simpa using List.find?_some h⟩

/-- The role get_or_create preserves the table constraints. -/
theorem gcr_wf (db : DB) (name desc : String) (h : SetupWF db) :
    SetupWF (getOrCreateRole db name desc).2 := by
  obtain ⟨hb, hinj, hrb, hrinj, hri, hpi⟩ := h
  unfold getOrCreateRole
  cases db.roles.find? fun r => r.name == name with
  | some r => exact ⟨hb, hinj, hrb, hrinj, hri, hpi⟩
  | none =>
    refine ⟨hb, hinj, ?_, ?_, ?_, hpi⟩
    · intro r hr
      rcases List.mem_append.mp hr with hr | hr
      · exact Nat.lt_succ_of_lt (hrb r hr)
      · rw [List.mem_singleton.mp hr]
        exact Nat.lt_succ_self _
    · intro r hr s hs hid
      rcases List.mem_append.mp hr with hr | hr <;>
        rcases List.mem_append.mp hs with hs | hs
      · exact hrinj r hr s hs hid
      · rw [List.mem_singleton.mp hs] at hid
        exact absurd hid (Nat.ne_of_lt (hrb r hr))
      · rw [List.mem_singleton.mp hr] at hid
        exact absurd hid.symm (Nat.ne_of_lt (hrb s hs))
      · rw [List.mem_singleton.mp hr, List.mem_singleton.mp hs]
    · intro rp hrp
      exact List.mem_append_left _ (hri rp hrp)

/-- Roles already in the table under a different name keep a distinct id. -/
theorem gcr_distinct (db : DB) (name desc : String) (h : SetupWF db) :
    ∀ r' ∈ db.roles, r'.name ≠ name → r'.id ≠ (getOrCreateRole db name desc).1.id := by
  obtain ⟨_, _, hrb, hrinj, _, _⟩ := h
  intro r' hr' hname
  unfold getOrCreateRole
  cases hf : db.roles.find? fun r => r.name == name with
  | none =>
    dsimp only
    exact Nat.ne_of_lt (hrb r' hr')
  | some r =>
    dsimp only
    intro hid
    have hrr : r' = r := hrinj r' hr' r (List.mem_of_find?_eq_some hf) hid
    have : r.name = name := by simpa using List.find?_some hf
    rw [hrr] at hname
    exact hname this

/-- The role get_or_create never introduces a duplicate role name. -/
theorem gcr_names_nodup (db : DB) (name desc : String)
    (h : (db.roles.map fun r => r.name).Nodup) :
    ((getOrCreateRole db name desc).2.roles.map fun r => r.name).Nodup := by
  unfold getOrCreateRole
  cases hf : db.roles.find? fun r => r.name == name with
  | some r => exact h
  | none =>
    rw [List.find?_eq_none] at hf
    dsimp only
    rw [List.map_append, List.nodup_append]
    refine ⟨h, List.nodup_singleton _, ?_⟩
    intro c hc hc'
    rw [List.map_singleton, List.mem_singleton] at hc'
    subst hc'
    obtain ⟨r, hr, hrc⟩ := List.mem_map.mp hc
    exact absurd (by simp [hrc]) (hf r hr)

/-! Lemmas for the seeding command: the assignment loop. -/

/-- Tables other than RolePermission are untouched by an assignment step. -/
theorem assign_frame (role : Role) (db : DB) (c : String) :
    (assignPermission role db c).permissions = db.permissions ∧
    (assignPermission role db c).roles = db.roles ∧
    (assignPermission role db c).userRoles = db.userRoles ∧
    (assignPermission role db c).permSeq = db.permSeq ∧
    (assignPermission role db c).roleSeq = db.roleSeq := by
  unfold assignPermission
  cases db.permissions.find? fun q => q.codename == c with
  | none => exact ⟨rfl, rfl, rfl, rfl, rfl⟩
  | some p =>
    dsimp only
    cases db.rolePermissions.any fun rp =>
        rp.role.id == role.id && rp.permission.id == p.id with
    | true => exact ⟨rfl, rfl, rfl, rfl, rfl⟩
    | false => exact ⟨rfl, rfl, rfl, rfl, rfl⟩

/-- An assignment step only appends to the RolePermission table. -/
theorem assign_rps_le (role : Role) (db : DB) (c : String) :
    db.rolePermissions <+: (assignPermission role db c).rolePermissions := by
  unfold assignPermission
  cases db.permissions.find? fun q => q.codename == c with
  | none => exact List.prefix_refl _
  | some p =>
    dsimp only
    cases db.rolePermissions.any fun rp =>
        rp.role.id == role.id && rp.permission.id == p.id with
    | true => exact List.prefix_refl _
    | false => exact ⟨_, rfl⟩

/-- Any row added by an assignment step links this role to a cataloged
permission. -/
theorem assign_new (role : Role) (db : DB) (c : String) :
    ∀ rp ∈ (assignPermission role db c).rolePermissions,
      rp ∈ db.rolePermissions ∨ (rp.role = role ∧ rp.permission ∈ db.permissions) := by
  unfold assignPermission
  cases hf : db.permissions.find? fun q => q.codename == c with
  | none => exact fun rp h => Or.inl h
  | some p =>
    dsimp only
    cases db.rolePermissions.any fun rp =>
        rp.role.id == role.id && rp.permission.id == p.id with
    | true => exact fun rp h => Or.inl h
    | false =>
      intro rp h
      rcases List.mem_append.mp h with h | h
      · exact Or.inl h
      · rw [List.mem_singleton.mp h]
        exact Or.inr ⟨rfl, List.mem_of_find?_eq_some hf⟩

/-- After assigning codename c found as permission p, the (role, p) link
exists. -/
theorem assign_establishes (role : Role) (db : DB) (c : String) (p : Permission)
    (hf : (db.permissions.find? fun q => q.codename == c) = some p) :
    ((assignPermission role db c).rolePermissions.any fun rp =>
      rp.role.id == role.id && rp.permission.id == p.id) = true := by
  unfold assignPermission
  rw [hf]
  dsimp only
  cases hex : db.rolePermissions.any fun rp =>
      rp.role.id == role.id && rp.permission.id == p.id with
  | true => simpa using hex
  | false =>
    simp only [Bool.false_eq_true, if_false]
    rw [List.any_append]
    simp

/-- An assignment step never introduces a duplicate (role, permission) pair. -/
theorem assign_pairs_nodup (role : Role) (db : DB) (c : String)
    (h : (db.rolePermissions.map fun rp => (rp.role.id, rp.permission.id)).Nodup) :
    ((assignPermission role db c).rolePermissions.map
      fun rp => (rp.role.id, rp.permission.id)).Nodup := by
  unfold assignPermission
  cases hf : db.permissions.find? fun q => q.codename == c with
  | none => exact h
  | some p =>
    dsimp only
    cases hex : db.rolePermissions.any fun rp =>
        rp.role.id == role.id && rp.permission.id == p.id with
    | true => simpa using h
    | false =>
      simp only [Bool.false_eq_true, if_false]
      rw [List.map_append, List.nodup_append]
      refine ⟨h, by simp, ?_⟩
      intro x hx hx'
      rw [List.map_singleton, List.mem_singleton] at hx'
      subst hx'
      obtain ⟨rp, hrp, hpair⟩ := List.mem_map.mp hx
      rw [List.any_eq_false] at hex
      apply hex rp hrp
      have h1 : rp.role.id = role.id := congrArg Prod.fst hpair
      have h2 : rp.permission.id = p.id := congrArg Prod.snd hpair
      simp [h1, h2]

/-- Frame of the whole assignment loop. -/
theorem assignFold_frame (role : Role) : ∀ (l : List String) (db : DB),
    (l.foldl (assignPermission role) db).permissions = db.permissions ∧
    (l.foldl (assignPermission role) db).roles = db.roles ∧
    (l.foldl (assignPermission role) db).userRoles = db.userRoles ∧
    (l.foldl (assignPermission role) db).permSeq = db.permSeq ∧
    (l.foldl (assignPermission role) db).roleSeq = db.roleSeq := by
  intro l
  induction l with
  | nil => intro db; exact ⟨rfl, rfl, rfl, rfl, rfl⟩
  | cons a l ih =>
    intro db
    obtain ⟨h1, h2, h3, h4, h5⟩ := ih (assignPermission role db a)
    obtain ⟨g1, g2, g3, g4, g5⟩ := assign_frame role db a
    exact ⟨h1.trans g1, h2.trans g2, h3.trans g3, h4.trans g4, h5.trans g5⟩

/-- The whole assignment loop only appends to the RolePermission table. -/
theorem assignFold_rps_le (role : Role) : ∀ (l : List String) (db : DB),
    db.rolePermissions <+: (l.foldl (assignPermission role) db).rolePermissions := by
  intro l
  induction l with
  | nil => intro db; exact List.prefix_refl _
  | cons a l ih =>
    intro db
    exact (assign_rps_le role db a).trans (ih (assignPermission role db a))

/-- Rows present after the loop were present before or link this role to a
cataloged permission. -/
theorem assignFold_new (role : Role) : ∀ (l : List String) (db : DB),
    ∀ rp ∈ (l.foldl (assignPermission role) db).rolePermissions,
      rp ∈ db.rolePermissions ∨ (rp.role = role ∧ rp.permission ∈ db.permissions) := by
  intro l
  induction l with
  | nil => intro db rp h; exact Or.inl h
  | cons a l ih =>
    intro db rp h
    obtain ⟨hp, _, _, _, _⟩ := assign_frame role db a
    rcases ih (assignPermission role db a) rp h with h' | ⟨hr, hpm⟩
    · exact assign_new role db a rp h'
    · rw [hp] at hpm
      exact Or.inr ⟨hr, hpm⟩

/-- Any-true facts about the RolePermission table survive the loop. -/
theorem assignFold_any_mono (role : Role) (l : List String) (db : DB)
    {q : RolePermission → Bool} (h : db.rolePermissions.any q = true) :
    ((l.foldl (assignPermission role) db).rolePermissions.any q) = true :=
  any_subset (assignFold_rps_le role l db).subset h

/-- The loop links this role to the permission found for each listed
codename. -/
theorem assignFold_establishes (role : Role) : ∀ (l : List String) (db : DB),
    ∀ c ∈ l, ∀ p, (db.permissions.find? fun q => q.codename == c) = some p →
      ((l.foldl (assignPermission role) db).rolePermissions.any fun rp =>
        rp.role.id == role.id && rp.permission.id == p.id) = true := by
  intro l
  induction l with
  | nil =>
    intro db c hc
    cases hc
  | cons a l ih =>
    intro db c hc p hf
    rcases List.mem_cons.mp hc with rfl | hc'
    · exact assignFold_any_mono role l (assignPermission role db c)
        (assign_establishes role db c p hf)
    · apply ih (assignPermission role db a) c hc' p
      rw [(assign_frame role db a).1]
      exact hf

/-- The whole assignment loop preserves pair uniqueness. -/
theorem assignFold_pairs_nodup (role : Role) : ∀ (l : List String) (db : DB),
    (db.rolePermissions.map fun rp => (rp.role.id, rp.permission.id)).Nodup →
    ((l.foldl (assignPermission role) db).rolePermissions.map
      fun rp => (rp.role.id, rp.permission.id)).Nodup := by
  intro l
  induction l with
  | nil => intro db h; exact h
  | cons a l ih => intro db h; exact ih _ (assign_pairs_nodup role db a h)

/-! Lemmas for the seeding command: the cleanup loop. -/

/-- Cleanup touches only the RolePermission table. -/
theorem cleanup_frame (r : Role) (d : List String) (db : DB) :
    (cleanupRolePermissions r d db).permissions = db.permissions ∧
    (cleanupRolePermissions r d db).roles = db.roles ∧
    (cleanupRolePermissions r d db).userRoles = db.userRoles ∧
    (cleanupRolePermissions r d db).permSeq = db.permSeq ∧
    (cleanupRolePermissions r d db).roleSeq = db.roleSeq :=
  ⟨rfl, rfl, rfl, rfl, rfl⟩

/-- Cleanup only removes rows. -/
theorem cleanup_sublist (r : Role) (d : List String) (db : DB) :
    (cleanupRolePermissions r d db).rolePermissions.Sublist db.rolePermissions :=
  List.filter_sublist _

/-- After cleanup, every remaining row of this role is desired (or carries the
falsy empty codename the loop skips). -/
theorem cleanup_clean (r : Role) (d : List String) (db : DB) :
    ∀ rp ∈ (cleanupRolePermissions r d db).rolePermissions, rp.role.id = r.id →
      rp.permission.codename = "" ∨ rp.permission.codename ∈ d := by
  intro rp hrp hrid
  obtain ⟨hmem, hcond⟩ := List.mem_filter.mp hrp
  by_cases hc : rp.permission.codename = ""
  · exact Or.inl hc
  · right
    by_contra hnc
    simp [hrid, hc, hnc, List.contains] at hcond

/-- Rows of another role, rows with a desired codename, and rows with the
empty codename survive cleanup. -/
theorem cleanup_keeps (r : Role) (d : List String) (db : DB) :
    ∀ rp ∈ db.rolePermissions,
      (rp.role.id ≠ r.id ∨ rp.permission.codename = "" ∨ rp.permission.codename ∈ d) →
      rp ∈ (cleanupRolePermissions r d db).rolePermissions := by
  intro rp hmem hor
  apply List.mem_filter.mpr
  refine ⟨hmem, ?_⟩
  rcases hor with h | h | h
  · simp [h]
  · simp [h]
  · simp [h, List.contains]

/-- A removed row belonged to this role and carried a non-empty codename
outside the desired set. -/
theorem cleanup_removed (r : Role) (d : List String) (db : DB) :
    ∀ rp ∈ db.rolePermissions, rp ∉ (cleanupRolePermissions r d db).rolePermissions →
      rp.role.id = r.id ∧ rp.permission.codename ≠ "" ∧ rp.permission.codename ∉ d := by
  intro rp hmem hnot
  refine ⟨?_, ?_, ?_⟩
  · by_contra h1
    exact hnot (cleanup_keeps r d db rp hmem (Or.inl h1))
  · intro h2
    exact hnot (cleanup_keeps r d db rp hmem (Or.inr (Or.inl h2)))
  · intro h3
    exact hnot (cleanup_keeps r d db rp hmem (Or.inr (Or.inr h3)))

/-- A find? result survives extending the list on the right. -/
theorem find?_prefix_stable {α : Type} {p : α → Bool} {l l' : List α} {a : α}
    (hpre : l <+: l') (h : l.find? p = some a) : l'.find? p = some a := by
  obtain ⟨t, rfl⟩ := hpre
  rw [List.find?_append, h]
  rfl

/-- Full specification of one role block of the seeding command: frame over
the other tables, preservation of the constraints, reconciliation of this
role, preservation of previously reconciled roles, the characterization of
removed rows, and uniqueness preservation. -/
theorem seedRole_spec (db : DB) (name desc : String) (desired : List String)
    (hwf : SetupWF db)
    (hd : ∀ c ∈ desired, ∃ p ∈ db.permissions, p.codename = c) :
    (seedRole db name desc desired).permissions = db.permissions ∧
    (seedRole db name desc desired).userRoles = db.userRoles ∧
    (seedRole db name desc desired).permSeq = db.permSeq ∧
    db.roles <+: (seedRole db name desc desired).roles ∧
    SetupWF (seedRole db name desc desired) ∧
    RoleSeeded (seedRole db name desc desired) name desired ∧
    (∀ name' desired', name' ≠ name → RoleSeeded db name' desired' →
      RoleSeeded (seedRole db name desc desired) name' desired') ∧
    (∀ rp ∈ db.rolePermissions, rp ∉ (seedRole db name desc desired).rolePermissions →
      rp.role.name = name ∧ rp.permission.codename ≠ "" ∧
        rp.permission.codename ∉ desired) ∧
    ((db.rolePermissions.map fun rp => (rp.role.id, rp.permission.id)).Nodup →
      ((seedRole db name desc desired).rolePermissions.map
        fun rp => (rp.role.id, rp.permission.id)).Nodup) ∧
    ((db.roles.map fun r => r.name).Nodup →
      ((seedRole db name desc desired).roles.map fun r => r.name).Nodup) := by
  obtain ⟨hpb, hpi, hrb, hri, hrpr, hrpp⟩ := hwf
  have hwf' : SetupWF db := ⟨hpb, hpi, hrb, hri, hrpr, hrpp⟩
  rcases hgcr : getOrCreateRole db name desc with ⟨r, db2⟩
  have hseed : seedRole db name desc desired =
      cleanupRolePermissions r desired (desired.foldl (assignPermission r) db2) := by
    unfold seedRole
    rw [hgcr]
  have hfr2 : (db2.roles.find? fun x => x.name == name) = some r := by
    have := gcr_find db name desc
    rw [hgcr] at this
    exact this
  have hmem2 : r ∈ db2.roles := by
    have := (gcr_mem_name db name desc).1
    rw [hgcr] at this
    exact this
  have hname2 : r.name = name := by
    have := (gcr_mem_name db name desc).2
    rw [hgcr] at this
    exact this
  have hwf2 : SetupWF db2 := by
    have := gcr_wf db name desc hwf'
    rw [hgcr] at this
    exact this
  obtain ⟨h2pb, h2pi, h2rb, h2ri, h2rpr, h2rpp⟩ := hwf2
  have hroles_le : db.roles <+: db2.roles := by
    have := gcr_roles_le db name desc
    rw [hgcr] at this
    exact this
  have hperm2 : db2.permissions = db.permissions := by
    have := (gcr_frame db name desc).1
    rw [hgcr] at this
    exact this
  have hrp2 : db2.rolePermissions = db.rolePermissions := by
    have := (gcr_frame db name desc).2.1
    rw [hgcr] at this
    exact this
  have hur2 : db2.userRoles = db.userRoles := by
    have := (gcr_frame db name desc).2.2.1
    rw [hgcr] at this
    exact this
  have hps2 : db2.permSeq = db.permSeq := by
    have := (gcr_frame db name desc).2.2.2
    rw [hgcr] at this
    exact this
  obtain ⟨hf3p, hf3r, hf3u, hf3ps, hf3rs⟩ := assignFold_frame r desired db2
  rw [hseed]
  refine ⟨?_, ?_, ?_, ?_, ?_, ?_, ?_, ?_, ?_, ?_⟩
  · exact hf3p.trans hperm2
  · exact hf3u.trans hur2
  · exact hf3ps.trans hps2
  · show db.roles <+: (desired.foldl (assignPermission r) db2).roles
    rw [hf3r]
    exact hroles_le
  · unfold SetupWF
    refine ⟨?_, ?_, ?_, ?_, ?_, ?_⟩
    · show ∀ p ∈ (desired.foldl (assignPermission r) db2).permissions,
        p.id < (desired.foldl (assignPermission r) db2).permSeq
      rw [hf3p, hperm2, hf3ps, hps2]
      exact hpb
    · show ∀ p ∈ (desired.foldl (assignPermission r) db2).permissions,
        ∀ q ∈ (desired.foldl (assignPermission r) db2).permissions, p.id = q.id → p = q
      rw [hf3p, hperm2]
      exact hpi
    · show ∀ s ∈ (desired.foldl (assignPermission r) db2).roles,
        s.id < (desired.foldl (assignPermission r) db2).roleSeq
      rw [hf3r, hf3rs]
      exact h2rb
    · show ∀ s ∈ (desired.foldl (assignPermission r) db2).roles,
        ∀ t ∈ (desired.foldl (assignPermission r) db2).roles, s.id = t.id → s = t
      rw [hf3r]
      exact h2ri
    · intro rp hrp
      show rp.role ∈ (desired.foldl (assignPermission r) db2).roles
      rw [hf3r]
      have hrp3 : rp ∈ (desired.foldl (assignPermission r) db2).rolePermissions :=
        (cleanup_sublist r desired _).subset hrp
      rcases assignFold_new r desired db2 rp hrp3 with hin | ⟨hr, _⟩
      · rw [hrp2] at hin
        exact hroles_le.subset (hrpr rp hin)
      · rw [hr]
        exact hmem2
    · intro rp hrp
      show rp.permission ∈ (desired.foldl (assignPermission r) db2).permissions
      rw [hf3p, hperm2]
      have hrp3 : rp ∈ (desired.foldl (assignPermission r) db2).rolePermissions :=
        (cleanup_sublist r desired _).subset hrp
      rcases assignFold_new r desired db2 rp hrp3 with hin | ⟨_, hp⟩
      · rw [hrp2] at hin
        exact hrpp rp hin
      · rw [hperm2] at hp
        exact hp
  · refine ⟨r, ?_, ?_, ?_⟩
    · show ((desired.foldl (assignPermission r) db2).roles.find?
        fun x => x.name == name) = some r
      rw [hf3r]
      exact hfr2
    · intro c hc
      obtain ⟨p, hp, hpc⟩ := hd c hc
      have hfsome : (db.permissions.find? fun q => q.codename == c).isSome := by
        rw [List.find?_isSome]
        exact ⟨p, hp, by simp [hpc]⟩
      cases hfp : db.permissions.find? fun q => q.codename == c with
      | none =>
        rw [hfp] at hfsome
        cases hfsome
      | some p0 =>
        have hp0c : p0.codename = c := by simpa using List.find?_some hfp
        have hp0mem : p0 ∈ db.permissions := List.mem_of_find?_eq_some hfp
        refine ⟨p0, ?_, ?_⟩
        · show ((desired.foldl (assignPermission r) db2).permissions.find?
            fun q => q.codename == c) = some p0
          rw [hf3p, hperm2]
          exact hfp
        · have hest := assignFold_establishes r desired db2 c hc p0
            (by rw [hperm2]; exact hfp)
          rw [List.any_eq_true] at hest
          obtain ⟨X, hX3, hXcond⟩ := hest
          have hXc : X.role.id = r.id ∧ X.permission.id = p0.id := by
            simpa using hXcond
          have hXpm : X.permission ∈ db.permissions := by
            rcases assignFold_new r desired db2 X hX3 with hin | ⟨_, hpm⟩
            · rw [hrp2] at hin
              exact hrpp X hin
            · rw [hperm2] at hpm
              exact hpm
          have hXeq : X.permission = p0 := hpi X.permission hXpm p0 hp0mem hXc.2
          apply List.any_eq_true.mpr
          refine ⟨X, cleanup_keeps r desired _ X hX3 (Or.inr (Or.inr ?_)), hXcond⟩
          rw [hXeq, hp0c]
          exact hc
    · exact cleanup_clean r desired _
  · intro name' desired' hne hseeded
    obtain ⟨r', hfr', hpairs', hclean'⟩ := hseeded
    have hr'name : r'.name = name' := by simpa using List.find?_some hfr'
    have hr'mem : r' ∈ db.roles := List.mem_of_find?_eq_some hfr'
    have hrne : r'.id ≠ r.id := by
      have := gcr_distinct db name desc hwf' r' hr'mem (by rw [hr'name]; exact hne)
      rw [hgcr] at this
      exact this
    refine ⟨r', ?_, ?_, ?_⟩
    · show ((desired.foldl (assignPermission r) db2).roles.find?
        fun x => x.name == name') = some r'
      rw [hf3r]
      exact find?_prefix_stable hroles_le hfr'
    · intro c hc
      obtain ⟨p, hfp, hany⟩ := hpairs' c hc
      refine ⟨p, ?_, ?_⟩
      · show ((desired.foldl (assignPermission r) db2).permissions.find?
          fun q => q.codename == c) = some p
        rw [hf3p, hperm2]
        exact hfp
      · have hany2 : (db2.rolePermissions.any fun rp =>
            rp.role.id == r'.id && rp.permission.id == p.id) = true := by
          rw [hrp2]
          exact hany
        have hany3 := assignFold_any_mono r desired db2 hany2
        rw [List.any_eq_true] at hany3
        obtain ⟨X, hX3, hXcond⟩ := hany3
        have hXc : X.role.id = r'.id ∧ X.permission.id = p.id := by
          simpa using hXcond
        apply List.any_eq_true.mpr
        refine ⟨X, cleanup_keeps r desired _ X hX3 (Or.inl ?_), hXcond⟩
        rw [hXc.1]
        exact hrne
    · intro rp hrp hrid
      have hrp3 : rp ∈ (desired.foldl (assignPermission r) db2).rolePermissions :=
        (cleanup_sublist r desired _).subset hrp
      rcases assignFold_new r desired db2 rp hrp3 with hin | ⟨hr, _⟩
      · rw [hrp2] at hin
        exact hclean' rp hin hrid
      · exfalso
        apply hrne
        rw [← hrid, hr]
  · intro rp hmem hnot
    have hmem3 : rp ∈ (desired.foldl (assignPermission r) db2).rolePermissions :=
      (assignFold_rps_le r desired db2).subset (by rw [hrp2]; exact hmem)
    obtain ⟨hrid, hne'', hnd⟩ := cleanup_removed r desired _ rp hmem3 hnot
    refine ⟨?_, hne'', hnd⟩
    have hrrole2 : rp.role ∈ db2.roles := hroles_le.subset (hrpr rp hmem)
    have heq : rp.role = r := h2ri rp.role hrrole2 r hmem2 hrid
    rw [heq]
    exact hname2
  · intro h
    have h2 : (db2.rolePermissions.map fun rp => (rp.role.id, rp.permission.id)).Nodup := by
      rw [hrp2]
      exact h
    have h3 := assignFold_pairs_nodup r desired db2 h2
    exact List.Nodup.sublist ((cleanup_sublist r desired _).map _) h3
  · intro h
    show ((desired.foldl (assignPermission r) db2).roles.map fun s => s.name).Nodup
    rw [hf3r]
    have := gcr_names_nodup db name desc h
    rw [hgcr] at this
    exact this

/-- Full specification of one run of the seeding command from any state
satisfying the table constraints: the run seeds the catalog and the four
roles, never deletes Permission or Role rows, never introduces duplicates,
and removes only RolePermission rows linking a seeded role to a non-desired
permission. -/
theorem setup_rbac_spec (db : DB) (hwf : SetupWF db) :
    Seeded (setup_rbac db) ∧
    db.permissions <+: (setup_rbac db).permissions ∧
    db.roles <+: (setup_rbac db).roles ∧
    ((db.permissions.map fun p => p.codename).Nodup →
      ((setup_rbac db).permissions.map fun p => p.codename).Nodup) ∧
    ((db.roles.map fun r => r.name).Nodup →
      ((setup_rbac db).roles.map fun r => r.name).Nodup) ∧
    ((db.rolePermissions.map fun rp => (rp.role.id, rp.permission.id)).Nodup →
      ((setup_rbac db).rolePermissions.map
        fun rp => (rp.role.id, rp.permission.id)).Nodup) ∧
    (∀ rp ∈ db.rolePermissions, rp ∉ (setup_rbac db).rolePermissions →
      ((rp.role.name = "Chief Officer" ∧ rp.permission.codename ∉ chief_permissions) ∨
       (rp.role.name = "Accountant Officer" ∧
         rp.permission.codename ∉ accountant_permissions) ∨
       (rp.role.name = "Auditor" ∧ rp.permission.codename ∉ auditor_permissions) ∨
       (rp.role.name = "Clerk" ∧ rp.permission.codename ∉ clerk_permissions)) ∧
      rp.permission.codename ≠ "") := by
  have hchief_sub : ∀ c ∈ chief_permissions, ∃ pd ∈ permissions_data, pd.1 = c := by decide
  have hacct_sub : ∀ c ∈ accountant_permissions, ∃ pd ∈ permissions_data, pd.1 = c := by
    decide
  have haud_sub : ∀ c ∈ auditor_permissions, ∃ pd ∈ permissions_data, pd.1 = c := by decide
  have hclerk_sub : ∀ c ∈ clerk_permissions, ∃ pd ∈ permissions_data, pd.1 = c := by decide
  set A := permissions_data.foldl getOrCreatePermission db with hA
  obtain ⟨hA_roles, hA_rps, hA_ur, hA_rseq⟩ := gcpFold_frame permissions_data db
  have hA_wf := gcpFold_wf permissions_data db hwf
  have hA_le := gcpFold_perms_le permissions_data db
  have hA_seeds := gcpFold_seeds permissions_data db
  have hA_cn := gcpFold_codenames_nodup permissions_data db
  have hA_has : ∀ c, (∃ pd ∈ permissions_data, pd.1 = c) →
      ∃ p ∈ A.permissions, p.codename = c := by
    rintro c ⟨pd, hpd, hpc⟩
    obtain ⟨p, hp, hc2⟩ := hA_seeds pd hpd
    exact ⟨p, hp, by rw [hc2, hpc]⟩
  set B := seedRole A "Chief Officer"
    "Master Administrator with full access to all system features" chief_permissions with hB
  obtain ⟨hB_p, hB_u, hB_ps, hB_rles, hB_wf, hB_rs, hB_pres, hB_rem, hB_pairs, hB_names⟩ :=
    seedRole_spec A "Chief Officer"
      "Master Administrator with full access to all system features" chief_permissions
      hA_wf (fun c hc => hA_has c (hchief_sub c hc))
  set C := seedRole B "Accountant Officer"
    "Financial operator with limited permissions per requirements" accountant_permissions
    with hC
  obtain ⟨hC_p, hC_u, hC_ps, hC_rles, hC_wf, hC_rs, hC_pres, hC_rem, hC_pairs, hC_names⟩ :=
    seedRole_spec B "Accountant Officer"
      "Financial operator with limited permissions per requirements" accountant_permissions
      hB_wf (fun c hc => by
        rw [hB_p]
        exact hA_has c (hacct_sub c hc))
  set D := seedRole C "Auditor"
    "Auditing access with limited create rights on contractors" auditor_permissions with hD
  obtain ⟨hD_p, hD_u, hD_ps, hD_rles, hD_wf, hD_rs, hD_pres, hD_rem, hD_pairs, hD_names⟩ :=
    seedRole_spec C "Auditor"
      "Auditing access with limited create rights on contractors" auditor_permissions
      hC_wf (fun c hc => by
        rw [hC_p, hB_p]
        exact hA_has c (haud_sub c hc))
  set E := seedRole D "Clerk"
    "Basic view and reporting access as per requirements" clerk_permissions with hE
  obtain ⟨hE_p, hE_u, hE_ps, hE_rles, hE_wf, hE_rs, hE_pres, hE_rem, hE_pairs, hE_names⟩ :=
    seedRole_spec D "Clerk"
      "Basic view and reporting access as per requirements" clerk_permissions
      hD_wf (fun c hc => by
        rw [hD_p, hC_p, hB_p]
        exact hA_has c (hclerk_sub c hc))
  have hsetup : setup_rbac db = E := rfl
  rw [hsetup]
  have hEperm : E.permissions = A.permissions := by rw [hE_p, hD_p, hC_p, hB_p]
  refine ⟨⟨?_, ?_, ?_, ?_, ?_⟩, ?_, ?_, ?_, ?_, ?_, ?_⟩
  · intro pd hpd
    obtain ⟨p, hp, hc⟩ := hA_seeds pd hpd
    refine ⟨p, ?_, hc⟩
    rw [hEperm]
    exact hp
  · exact hE_pres "Chief Officer" chief_permissions (by decide)
      (hD_pres "Chief Officer" chief_permissions (by decide)
        (hC_pres "Chief Officer" chief_permissions (by decide) hB_rs))
  · exact hE_pres "Accountant Officer" accountant_permissions (by decide)
      (hD_pres "Accountant Officer" accountant_permissions (by decide) hC_rs)
  · exact hE_pres "Auditor" auditor_permissions (by decide) hD_rs
  · exact hE_rs
  · rw [hEperm]
    exact hA_le
  · have h1 : db.roles <+: B.roles := by
      rw [← hA_roles]
      exact hB_rles
    exact ((h1.trans hC_rles).trans hD_rles).trans hE_rles
  · intro h
    rw [hEperm]
    exact hA_cn h
  · intro h
    apply hE_names
    apply hD_names
    apply hC_names
    apply hB_names
    rw [hA_roles]
    exact h
  · intro h
    apply hE_pairs
    apply hD_pairs
    apply hC_pairs
    apply hB_pairs
    rw [hA_rps]
    exact h
  · intro rp hmem hnot
    have h1 : rp ∈ A.rolePermissions := by
      rw [hA_rps]
      exact hmem
    by_cases h2 : rp ∈ B.rolePermissions
    · by_cases h3 : rp ∈ C.rolePermissions
      · by_cases h4 : rp ∈ D.rolePermissions
        · obtain ⟨hn, hne, hnd⟩ := hE_rem rp h4 hnot
          exact ⟨Or.inr (Or.inr (Or.inr ⟨hn, hnd⟩)), hne⟩
        · obtain ⟨hn, hne, hnd⟩ := hD_rem rp h3 h4
          exact ⟨Or.inr (Or.inr (Or.inl ⟨hn, hnd⟩)), hne⟩
      · obtain ⟨hn, hne, hnd⟩ := hC_rem rp h2 h3
        exact ⟨Or.inr (Or.inl ⟨hn, hnd⟩), hne⟩
    · obtain ⟨hn, hne, hnd⟩ := hB_rem rp h1 h2
      exact ⟨Or.inl ⟨hn, hnd⟩, hne⟩

/-- Claim C9: under the tables' declared constraints, running setup_rbac
twice yields the same final state as running it once; no duplicate Permission,
Role, or RolePermission rows are created; no Permission or Role row is ever
deleted (the input tables are prefixes of the output tables); and the only
RolePermission rows removed link a seeded role to a permission outside that
role's desired set (and carry a non-empty codename, which the cleanup loop
requires before deleting). -/
theorem C9_theorem (db : DB) (hwf : SetupWF db) :
    setup_rbac (setup_rbac db) = setup_rbac db ∧
    (db.permissions <+: (setup_rbac db).permissions ∧
      db.roles <+: (setup_rbac db).roles) ∧
    (((db.permissions.map fun p => p.codename).Nodup →
        ((setup_rbac db).permissions.map fun p => p.codename).Nodup) ∧
      ((db.roles.map fun r => r.name).Nodup →
        ((setup_rbac db).roles.map fun r => r.name).Nodup) ∧
      ((db.rolePermissions.map fun rp => (rp.role.id, rp.permission.id)).Nodup →
        ((setup_rbac db).rolePermissions.map
          fun rp => (rp.role.id, rp.permission.id)).Nodup)) ∧
    (∀ rp ∈ db.rolePermissions, rp ∉ (setup_rbac db).rolePermissions →
      ((rp.role.name = "Chief Officer" ∧ rp.permission.codename ∉ chief_permissions) ∨
       (rp.role.name = "Accountant Officer" ∧
         rp.permission.codename ∉ accountant_permissions) ∨
       (rp.role.name = "Auditor" ∧ rp.permission.codename ∉ auditor_permissions) ∨
       (rp.role.name = "Clerk" ∧ rp.permission.codename ∉ clerk_permissions)) ∧
      rp.permission.codename ≠ "") := by
  obtain ⟨hseeded, hple, hrle, hcn, hrn, hpn, hrem⟩ := setup_rbac_spec db hwf
  exact ⟨setup_rbac_id _ hseeded, ⟨hple, hrle⟩, ⟨hcn, hrn, hpn⟩, hrem⟩

/-- Witness for C9_theorem at the empty database. -/
theorem C9_witness :
    SetupWF emptyDB ∧ setup_rbac (setup_rbac emptyDB) = setup_rbac emptyDB :=
  ⟨by decide, (C9_theorem emptyDB (by decide)).1⟩

end GovtBackend
